import Mathlib

/-!
# Verification of the annotated value model and its HTTP-protocol normalizers

This file is a shallow embedding, in Lean 4, of the event-ingestion data
layer implemented in `src/protocol/request.rs`, `src/protocol/stacktrace.rs`
and the surrounding crate.  The `Value` / `Meta` / `Annotated` core and the
derived `FromValue` / `ToValue` record conversions live in crate modules that
are not part of the published sources; where that is the case the
corresponding Lean definitions carry a doc comment starting with
`Modelled from the spec:` and follow the specification text.  Everything
taken from `request.rs` / `stacktrace.rs` is translated directly from the
Rust source.

Machine integers are embedded as `Int` / `Nat`; `f64` payloads are carried
as an opaque bit pattern (no claim concerns floating point).  The ordered
maps of the source (`BTreeMap`-like: key-sorted, insert replaces) are
embedded as key-sorted association lists.
-/

namespace Gen

/-- Modelled from the spec: the per-field metadata sidecar (`Meta`, crate
module `meta` which is not part of the published sources).  It records error
records `{message, value}`, processor remarks, an optional original length,
and the internal `original_value` slot used during parse failure recovery. -/
structure MetaG (V : Type) where
  errors : List (String × Option V) := []
  remarks : List String := []
  originalLength : Option Nat := none
  originalValue : Option V := none

/-- Modelled from the spec: `Annotated<T>` is the pair of an optional value
and a `Meta` sidecar. -/
structure AnnG (V α : Type) where
  value : Option α
  meta : MetaG V

/-- Modelled from the spec: the untyped JSON-like `Value` sum.  Children of
arrays and objects are annotated values; object entries preserve the
(key-sorted) map structure of the source.  The `f64` payload is carried as an
opaque bit pattern. -/
inductive Value where
  | null
  | vbool (b : Bool)
  | vi64 (i : Int)
  | vu64 (u : Nat)
  | vf64 (bits : Nat)
  | vstr (s : String)
  | varr (items : List (AnnG Value Value))
  | vobj (entries : List (String × AnnG Value Value))

abbrev Meta := MetaG Value

abbrev Annotated (α : Type) := AnnG Value α

/-- The empty metadata sidecar. -/
def Meta.empty : Meta := {}

/-- Modelled from the spec: `meta.is_empty()` iff errors, remarks and length
are all absent (the internal `original_value` slot is not counted). -/
def MetaG.isEmptyB (m : Meta) : Bool :=
  m.errors.isEmpty && m.remarks.isEmpty && m.originalLength.isNone

/-- Modelled from the spec: `add_error(message, optional_value)` appends the
error record and, when a value is captured, stores it in the internal
`original_value` slot (the slot `take_original_value` later reads). -/
def MetaG.addError (m : Meta) (message : String) (value : Option Value) : Meta :=
  { m with
    errors := m.errors ++ [(message, value)]
    originalValue := if value.isSome then value else m.originalValue }

/-- Modelled from the spec: the canonicalized form used when a `FromValue`
rejects a type; message is `"expected <expected_name>"`, original captured. -/
def MetaG.addUnexpectedValueError (m : Meta) (expected : String) (actual : Value) : Meta :=
  m.addError ("expected " ++ expected) (some actual)

/-- Modelled from the spec: reading the internal `original_value` slot
(`take_original_value` moves it out; the metas it is taken from are dropped
immediately afterwards in the source, so the embedding only reads). -/
def MetaG.takeOriginalValue (m : Meta) : Option Value :=
  m.originalValue

/-- Modelled from the spec: `merge(other)` concatenates errors and remarks;
later wins for scalar slots. -/
def MetaG.merge (m other : Meta) : Meta where
  errors := m.errors ++ other.errors
  remarks := m.remarks ++ other.remarks
  originalLength := other.originalLength.or m.originalLength
  originalValue := other.originalValue.or m.originalValue

/-- `Annotated::new(v)`: a successful value with empty metadata. -/
def Annotated.new {α : Type} (v : α) : Annotated α := ⟨some v, Meta.empty⟩

/-- `Annotated::empty()`: an absent value with empty metadata. -/
def Annotated.emptyA {α : Type} : Annotated α := ⟨none, Meta.empty⟩

/-- `Annotated::from_error(message, optional_value)`. -/
def Annotated.fromError {α : Type} (message : String) (value : Option Value) : Annotated α :=
  ⟨none, Meta.empty.addError message value⟩

/-! ## Key-sorted maps

The source stores objects in `BTreeMap`-like containers: iteration is in
strictly increasing key order and `insert` replaces an existing binding.
They are embedded as association lists kept sorted by key, ordered by the
lexicographic code-point comparison below (which coincides with Rust's byte
ordering of UTF-8 strings). -/

/-- Lexicographic comparison of character lists by code point. -/
def charListLtB : List Char → List Char → Bool
  | [], [] => false
  | [], _ :: _ => true
  | _ :: _, [] => false
  | a :: as, b :: bs =>
    decide (a.toNat < b.toNat) || (decide (a.toNat = b.toNat) && charListLtB as bs)

/-- Strict lexicographic string order (Rust `Ord` for `String`). -/
def strLtB (a b : String) : Bool := charListLtB a.data b.data

theorem charListLtB_irrefl : ∀ l, charListLtB l l = false := by
  intro l
  induction l with
  | nil => rfl
  | cons a as ih => simp [charListLtB, ih]

theorem charListLtB_asymm : ∀ (l1 l2 : List Char),
    charListLtB l1 l2 = true → charListLtB l2 l1 = false := by
  intro l1
  induction l1 with
  | nil =>
    intro l2 h
    cases l2 with
    | nil => exact absurd h (by simp [charListLtB])
    | cons b bs => simp [charListLtB]
  | cons a as ih =>
    intro l2 h
    cases l2 with
    | nil => exact absurd h (by simp [charListLtB])
    | cons b bs =>
      simp only [charListLtB, Bool.or_eq_true, decide_eq_true_eq, Bool.and_eq_true] at h
      rcases h with h | ⟨heq, hrec⟩
      · have h1 : decide (b.toNat < a.toNat) = false := by simp only [decide_eq_false_iff_not]; omega
        have h2 : decide (b.toNat = a.toNat) = false := by simp only [decide_eq_false_iff_not]; omega
        simp [charListLtB, h1, h2]
      · have h1 : decide (b.toNat < a.toNat) = false := by simp only [decide_eq_false_iff_not]; omega
        have h2 : charListLtB bs as = false := ih bs hrec
        simp [charListLtB, h1, h2, heq]

theorem charListLtB_trans : ∀ (l1 l2 l3 : List Char),
    charListLtB l1 l2 = true → charListLtB l2 l3 = true → charListLtB l1 l3 = true := by
  intro l1
  induction l1 with
  | nil =>
    intro l2 l3 h12 h23
    cases l2 with
    | nil => exact absurd h12 (by simp [charListLtB])
    | cons b bs =>
      cases l3 with
      | nil => exact absurd h23 (by simp [charListLtB])
      | cons c cs => simp [charListLtB]
  | cons a as ih =>
    intro l2 l3 h12 h23
    cases l2 with
    | nil => exact absurd h12 (by simp [charListLtB])
    | cons b bs =>
      cases l3 with
      | nil => exact absurd h23 (by simp [charListLtB])
      | cons c cs =>
        simp only [charListLtB, Bool.or_eq_true, decide_eq_true_eq, Bool.and_eq_true] at h12 h23 ⊢
        rcases h12 with h12 | ⟨heq12, hrec12⟩
        · rcases h23 with h23 | ⟨heq23, _⟩
          · exact Or.inl (by omega)
          · exact Or.inl (by omega)
        · rcases h23 with h23 | ⟨heq23, hrec23⟩
          · exact Or.inl (by omega)
          · exact Or.inr ⟨by omega, ih bs cs hrec12 hrec23⟩

theorem charToNat_inj {a b : Char} (h : a.toNat = b.toNat) : a = b := by
  have := Char.ofNat_toNat a
  rw [h, Char.ofNat_toNat] at this
  exact this.symm

theorem charListLtB_antisymm_eq : ∀ (l1 l2 : List Char),
    charListLtB l1 l2 = false → charListLtB l2 l1 = false → l1 = l2 := by
  intro l1
  induction l1 with
  | nil =>
    intro l2 h12 _
    cases l2 with
    | nil => rfl
    | cons b bs => exact absurd h12 (by simp [charListLtB])
  | cons a as ih =>
    intro l2 h12 h21
    cases l2 with
    | nil => exact absurd h21 (by simp [charListLtB])
    | cons b bs =>
      simp only [charListLtB, Bool.or_eq_false_iff, decide_eq_false_iff_not,
        Bool.and_eq_false_iff, decide_eq_false_iff_not] at h12 h21
      have heq : a.toNat = b.toNat := by omega
      have hchar : a = b := charToNat_inj heq
      have hr12 : charListLtB as bs = false := by
        rcases h12.2 with h | h
        · exact absurd heq (by simpa using h)
        · simpa using h
      have hr21 : charListLtB bs as = false := by
        rcases h21.2 with h | h
        · exact absurd heq.symm (by simpa using h)
        · simpa using h
      rw [hchar, ih bs hr12 hr21]

theorem strLtB_irrefl (a : String) : strLtB a a = false :=
  charListLtB_irrefl a.data

theorem strLtB_asymm {a b : String} (h : strLtB a b = true) : strLtB b a = false :=
  charListLtB_asymm a.data b.data h

theorem strLtB_trans {a b c : String} (h1 : strLtB a b = true) (h2 : strLtB b c = true) :
    strLtB a c = true :=
  charListLtB_trans a.data b.data c.data h1 h2

theorem strLtB_antisymm_eq {a b : String} (h1 : strLtB a b = false)
    (h2 : strLtB b a = false) : a = b := by
  rcases a with ⟨d1⟩
  rcases b with ⟨d2⟩
  exact congrArg String.mk (charListLtB_antisymm_eq d1 d2 h1 h2)

theorem strLtB_of_not_of_ne {a b : String} (h1 : strLtB a b = false) (h2 : a ≠ b) :
    strLtB b a = true := by
  cases hba : strLtB b a with
  | true => rfl
  | false => exact absurd (strLtB_antisymm_eq h1 hba) h2

theorem strLtB_ne {a b : String} (h : strLtB a b = true) : a ≠ b := by
  intro he
  rw [he] at h
  rw [strLtB_irrefl] at h
  exact Bool.false_ne_true h

/-- Association list standing for the source's ordered map. -/
abbrev SMap (α : Type) := List (String × α)

/-- Insert in key order, replacing an existing binding (`BTreeMap::insert`). -/
def mapInsert {α : Type} (k : String) (v : α) : SMap α → SMap α
  | [] => [(k, v)]
  | (k', v') :: rest =>
    if strLtB k k' then (k, v) :: (k', v') :: rest
    else if k = k' then (k, v) :: rest
    else (k', v') :: mapInsert k v rest

/-- Lookup by key (`BTreeMap::get`). -/
def mapLookup {α : Type} (k : String) : SMap α → Option α
  | [] => none
  | (k', v) :: rest => if k' = k then some v else mapLookup k rest

/-- Build a map from a list of pairs, inserting left to right
(`FromIterator` for the source's ordered map). -/
def collectMap {α : Type} (l : List (String × α)) : SMap α :=
  l.foldl (fun m e => mapInsert e.1 e.2 m) []

/-- The ordered-map invariant: keys strictly increasing. -/
abbrev MapWf {α : Type} (l : SMap α) : Prop :=
  l.Pairwise (fun a b => strLtB a.1 b.1 = true)

instance {α : Type} (l : SMap α) : Decidable (MapWf l) := by
  unfold MapWf
  infer_instance

theorem mapLookup_insert_self {α : Type} (k : String) (v : α) (l : SMap α) :
    mapLookup k (mapInsert k v l) = some v := by
  induction l with
  | nil => simp [mapInsert, mapLookup]
  | cons hd tl ih =>
    rcases hd with ⟨k', v'⟩
    simp only [mapInsert]
    by_cases h1 : strLtB k k' = true
    · rw [if_pos h1]
      simp [mapLookup]
    · rw [if_neg h1]
      by_cases h2 : k = k'
      · rw [if_pos h2]
        simp [mapLookup]
      · rw [if_neg h2]
        have h3 : k' ≠ k := fun h => h2 h.symm
        simp only [mapLookup, if_neg h3]
        exact ih

theorem mapLookup_insert_ne {α : Type} {q k : String} (hne : q ≠ k) (v : α) (l : SMap α) :
    mapLookup q (mapInsert k v l) = mapLookup q l := by
  have hkq : k ≠ q := fun h => hne h.symm
  induction l with
  | nil => simp only [mapInsert, mapLookup, if_neg hkq]
  | cons hd tl ih =>
    rcases hd with ⟨k', v'⟩
    simp only [mapInsert]
    by_cases h1 : strLtB k k' = true
    · rw [if_pos h1]
      simp only [mapLookup, if_neg hkq]
    · rw [if_neg h1]
      by_cases h2 : k = k'
      · rw [if_pos h2]
        subst h2
        simp only [mapLookup, if_neg hkq]
      · rw [if_neg h2]
        by_cases h4 : k' = q
        · simp only [mapLookup, if_pos h4]
        · simp only [mapLookup, if_neg h4]
          exact ih

theorem mapInsert_eq_append {α : Type} {k : String} (v : α) {l : SMap α}
    (h : ∀ e ∈ l, strLtB e.1 k = true) : mapInsert k v l = l ++ [(k, v)] := by
  induction l with
  | nil => rfl
  | cons hd tl ih =>
    have hlt : strLtB hd.1 k = true := h hd (List.mem_cons_self _ _)
    have h1 : ¬strLtB k hd.1 = true := by simp [strLtB_asymm hlt]
    have h2 : ¬k = hd.1 := fun he => strLtB_ne hlt he.symm
    simp only [mapInsert, if_neg h1, if_neg h2, List.cons_append, List.cons.injEq, true_and]
    exact ih (fun e he => h e (List.mem_cons_of_mem _ he))

theorem mapInsert_eq_cons {α : Type} {k : String} (v : α) {l : SMap α}
    (h : ∀ e ∈ l, strLtB k e.1 = true) : mapInsert k v l = (k, v) :: l := by
  cases l with
  | nil => rfl
  | cons hd tl =>
    have hlt : strLtB k hd.1 = true := h hd (List.mem_cons_self _ _)
    simp only [mapInsert, if_pos hlt]

theorem mem_mapInsert {α : Type} {e : String × α} {k : String} {v : α} :
    ∀ {l : SMap α}, e ∈ mapInsert k v l → e = (k, v) ∨ e ∈ l := by
  intro l
  induction l with
  | nil =>
    intro h
    simp only [mapInsert, List.mem_singleton] at h
    exact Or.inl h
  | cons hd tl ih =>
    rcases hd with ⟨k', v'⟩
    intro h
    simp only [mapInsert] at h
    by_cases h1 : strLtB k k' = true
    · rw [if_pos h1] at h
      rcases List.mem_cons.mp h with g | g
      · exact Or.inl g
      · exact Or.inr g
    · rw [if_neg h1] at h
      by_cases h2 : k = k'
      · rw [if_pos h2] at h
        rcases List.mem_cons.mp h with g | g
        · exact Or.inl g
        · exact Or.inr (List.mem_cons_of_mem _ g)
      · rw [if_neg h2] at h
        rcases List.mem_cons.mp h with g | g
        · exact Or.inr (g ▸ List.mem_cons_self _ _)
        · rcases ih g with g2 | g2
          · exact Or.inl g2
          · exact Or.inr (List.mem_cons_of_mem _ g2)

theorem MapWf.insert {α : Type} {l : SMap α} (k : String) (v : α) (h : MapWf l) :
    MapWf (mapInsert k v l) := by
  induction l with
  | nil => exact List.pairwise_singleton _ _
  | cons hd tl ih =>
    rcases hd with ⟨k', v'⟩
    rw [MapWf, List.pairwise_cons] at h
    obtain ⟨hhd, htl⟩ := h
    simp only [mapInsert]
    by_cases h1 : strLtB k k' = true
    · rw [if_pos h1]
      refine List.Pairwise.cons ?_ (List.Pairwise.cons hhd htl)
      intro e he
      rcases List.mem_cons.mp he with g | g
      · exact g ▸ h1
      · exact strLtB_trans h1 (hhd e g)
    · rw [if_neg h1]
      by_cases h2 : k = k'
      · rw [if_pos h2]
        subst h2
        exact List.Pairwise.cons hhd htl
      · rw [if_neg h2]
        have hk : strLtB k' k = true :=
          strLtB_of_not_of_ne (Bool.eq_false_iff.mpr h1) h2
        refine List.Pairwise.cons ?_ (ih htl)
        intro e he
        rcases mem_mapInsert he with g | g
        · exact g ▸ hk
        · exact hhd e g

theorem collectMap_step {α : Type} (l : List (String × α)) (acc : SMap α) (e : String × α) :
    (e :: l).foldl (fun m x => mapInsert x.1 x.2 m) acc
      = l.foldl (fun m x => mapInsert x.1 x.2 m) (mapInsert e.1 e.2 acc) := rfl

theorem MapWf.foldl {α : Type} {l : List (String × α)} {acc : SMap α} (h : MapWf acc) :
    MapWf (l.foldl (fun m x => mapInsert x.1 x.2 m) acc) := by
  induction l generalizing acc with
  | nil => exact h
  | cons e rest ih => exact ih (h.insert e.1 e.2)

/-- Folding the ordered-map insert over an already sorted list reproduces it:
the `BTreeMap` collect of a sorted iterator is the identity. -/
theorem foldl_insert_of_sorted {α : Type} :
    ∀ (l : List (String × α)) (acc : SMap α), MapWf (acc ++ l) →
      l.foldl (fun m x => mapInsert x.1 x.2 m) acc = acc ++ l := by
  intro l
  induction l with
  | nil => intro acc _; simp
  | cons e rest ih =>
    intro acc h
    have hcross : ∀ a ∈ acc, strLtB a.1 e.1 = true := by
      intro a ha
      exact (List.pairwise_append.mp h).2.2 a ha e (List.mem_cons_self _ _)
    rw [collectMap_step, mapInsert_eq_append _ hcross, ih]
    · simp
    · simpa using h

theorem collectMap_sorted_id {α : Type} {l : SMap α} (h : MapWf l) : collectMap l = l := by
  have := foldl_insert_of_sorted l [] (by simpa using h)
  simpa [collectMap] using this

theorem filter_mapInsert_neg {α : Type} {p : String → Bool} {k : String} (v : α) (l : SMap α)
    (h : p k = false) :
    (mapInsert k v l).filter (fun e => p e.1) = l.filter (fun e => p e.1) := by
  induction l with
  | nil => simp [mapInsert, List.filter, h]
  | cons hd tl ih =>
    rcases hd with ⟨k', v'⟩
    simp only [mapInsert]
    by_cases h1 : strLtB k k' = true
    · rw [if_pos h1, List.filter_cons_of_neg (by simp [h])]
    · rw [if_neg h1]
      by_cases h2 : k = k'
      · rw [if_pos h2, List.filter_cons_of_neg (by simp [h])]
        subst h2
        rw [List.filter_cons_of_neg (by simp [h])]
      · rw [if_neg h2]
        by_cases hp : p k'
        · rw [List.filter_cons_of_pos (by simpa using hp),
            List.filter_cons_of_pos (by simpa using hp), ih]
        · rw [List.filter_cons_of_neg (by simpa using hp),
            List.filter_cons_of_neg (by simpa using hp), ih]

theorem filter_mapInsert_pos {α : Type} {p : String → Bool} {k : String} (v : α) {l : SMap α}
    (hwf : MapWf l) (h : p k = true) :
    (mapInsert k v l).filter (fun e => p e.1) = mapInsert k v (l.filter (fun e => p e.1)) := by
  induction l with
  | nil => simp [mapInsert, List.filter, h]
  | cons hd tl ih =>
    rcases hd with ⟨k', v'⟩
    rw [MapWf, List.pairwise_cons] at hwf
    obtain ⟨hhd, htl⟩ := hwf
    simp only [mapInsert]
    by_cases h1 : strLtB k k' = true
    · rw [if_pos h1, List.filter_cons_of_pos (by simp [h])]
      have hbound : ∀ e ∈ ((k', v') :: tl).filter (fun e => p e.1), strLtB k e.1 = true := by
        intro e he
        rcases List.mem_cons.mp (List.mem_of_mem_filter he) with g | g
        · exact g ▸ h1
        · exact strLtB_trans h1 (hhd e g)
      rw [mapInsert_eq_cons _ hbound]
    · rw [if_neg h1]
      by_cases h2 : k = k'
      · rw [if_pos h2]
        subst h2
        rw [List.filter_cons_of_pos (by simp [h]), List.filter_cons_of_pos (by simp [h])]
        simp [mapInsert, strLtB_irrefl]
      · rw [if_neg h2]
        by_cases hp : p k'
        · rw [List.filter_cons_of_pos (by simpa using hp),
            List.filter_cons_of_pos (by simpa using hp), ih htl]
          have h1' : strLtB k k' = false := Bool.eq_false_iff.mpr h1
          simp only [mapInsert, h1', Bool.false_eq_true, if_false, if_neg h2]
        · rw [List.filter_cons_of_neg (by simpa using hp),
            List.filter_cons_of_neg (by simpa using hp), ih htl]

theorem filter_foldl_neg {α : Type} {p : String → Bool} :
    ∀ (l : List (String × α)) (acc : SMap α), (∀ e ∈ l, p e.1 = false) →
      (l.foldl (fun m x => mapInsert x.1 x.2 m) acc).filter (fun e => p e.1)
        = acc.filter (fun e => p e.1) := by
  intro l
  induction l with
  | nil => intro acc _; rfl
  | cons e rest ih =>
    intro acc h
    rw [collectMap_step, ih _ (fun x hx => h x (List.mem_cons_of_mem _ hx)),
      filter_mapInsert_neg _ _ (h e (List.mem_cons_self _ _))]

theorem filter_foldl_pos {α : Type} {p : String → Bool} :
    ∀ (l : List (String × α)) (acc : SMap α), MapWf acc → (∀ e ∈ l, p e.1 = true) →
      (l.foldl (fun m x => mapInsert x.1 x.2 m) acc).filter (fun e => p e.1)
        = l.foldl (fun m x => mapInsert x.1 x.2 m) (acc.filter (fun e => p e.1)) := by
  intro l
  induction l with
  | nil => intro acc _ _; rfl
  | cons e rest ih =>
    intro acc hwf h
    rw [collectMap_step, ih _ (hwf.insert e.1 e.2) (fun x hx => h x (List.mem_cons_of_mem _ hx)),
      filter_mapInsert_pos _ hwf (h e (List.mem_cons_self _ _)), collectMap_step]

theorem mapLookup_foldl_of_ne {α : Type} {q : String} :
    ∀ (l : List (String × α)) (acc : SMap α), (∀ e ∈ l, e.1 ≠ q) →
      mapLookup q (l.foldl (fun m x => mapInsert x.1 x.2 m) acc) = mapLookup q acc := by
  intro l
  induction l with
  | nil => intro acc _; rfl
  | cons e rest ih =>
    intro acc h
    rw [collectMap_step, ih _ (fun x hx => h x (List.mem_cons_of_mem _ hx)),
      mapLookup_insert_ne (fun g => h e (List.mem_cons_self _ _) g.symm)]

/-- Lookup through a left fold of inserts: the *last* binding for the key in
the inserted list wins, falling back to the accumulator. -/
theorem mapLookup_foldl {α : Type} {q : String} (l : List (String × α)) (acc : SMap α) :
    mapLookup q (l.foldl (fun m x => mapInsert x.1 x.2 m) acc)
      = (((l.filter (fun e => e.1 = q)).getLast?).map Prod.snd).or (mapLookup q acc) := by
  induction l using List.reverseRecOn with
  | nil => simp
  | append_singleton init e ih =>
    rw [List.foldl_append]
    simp only [List.foldl_cons, List.foldl_nil]
    by_cases he : e.1 = q
    · subst he
      rw [mapLookup_insert_self e.1 e.2 _, List.filter_append]
      simp [List.filter]
    · rw [mapLookup_insert_ne (fun g => he g.symm), ih, List.filter_append]
      simp [List.filter, he]

/-! ## Primitive FromValue / ToValue conversions

`FromValue` / `ToValue` for primitives live in the crate's `types` module,
which is not part of the published sources; they are modelled from the
specification (§4.4 / §4.5): totality, null passthrough, absence
passthrough, meta preservation. -/

/-- Modelled from the spec: `String::from_value` — accepts `String`; null and
absence pass through; everything else is an unexpected-value error with the
original captured. -/
def stringFromValue : Annotated Value → Annotated String
  | ⟨some (.vstr s), m⟩ => ⟨some s, m⟩
  | ⟨some .null, m⟩ => ⟨none, m⟩
  | ⟨none, m⟩ => ⟨none, m⟩
  | ⟨some v, m⟩ => ⟨none, m.addUnexpectedValueError "a string" v⟩

/-- Modelled from the spec: `u64::from_value` — accepts matching variants and
losslessly convertible ones. -/
def u64FromValue : Annotated Value → Annotated Nat
  | ⟨some (.vu64 u), m⟩ => ⟨some u, m⟩
  | ⟨some (.vi64 i), m⟩ =>
    if 0 ≤ i then ⟨some i.toNat, m⟩
    else ⟨none, m.addUnexpectedValueError "an unsigned integer" (.vi64 i)⟩
  | ⟨some .null, m⟩ => ⟨none, m⟩
  | ⟨none, m⟩ => ⟨none, m⟩
  | ⟨some v, m⟩ => ⟨none, m.addUnexpectedValueError "an unsigned integer" v⟩

/-- Modelled from the spec: `bool::from_value` — accepts only `Bool`. -/
def boolFromValue : Annotated Value → Annotated Bool
  | ⟨some (.vbool b), m⟩ => ⟨some b, m⟩
  | ⟨some .null, m⟩ => ⟨none, m⟩
  | ⟨none, m⟩ => ⟨none, m⟩
  | ⟨some v, m⟩ => ⟨none, m.addUnexpectedValueError "a boolean" v⟩

/-- Modelled from the spec: `Value` has no `FromValue` beyond identity. -/
def valueFromValue : Annotated Value → Annotated Value := fun a => a

/-- Modelled from the spec: `Array<String>::from_value` — accepts `Array`,
maps element-wise; non-arrays error. -/
def arrayStringFromValue : Annotated Value → Annotated (List (Annotated String))
  | ⟨some (.varr items), m⟩ => ⟨some (items.map stringFromValue), m⟩
  | ⟨some .null, m⟩ => ⟨none, m⟩
  | ⟨none, m⟩ => ⟨none, m⟩
  | ⟨some v, m⟩ => ⟨none, m.addUnexpectedValueError "an array" v⟩

/-- Modelled from the spec: `Object<String>::from_value` — accepts `Object`,
maps value-wise through `String::from_value`. -/
def objectStringFromValue : Annotated Value → Annotated (SMap (Annotated String))
  | ⟨some (.vobj entries), m⟩ =>
    ⟨some (collectMap (entries.map (fun e => (e.1, stringFromValue e.2)))), m⟩
  | ⟨some .null, m⟩ => ⟨none, m⟩
  | ⟨none, m⟩ => ⟨none, m⟩
  | ⟨some v, m⟩ => ⟨none, m.addUnexpectedValueError "an object" v⟩

/-- Modelled from the spec: `Object<Value>::from_value` — accepts `Object`,
entries pass through the identity `FromValue` of `Value`. -/
def objectValueFromValue : Annotated Value → Annotated (SMap (Annotated Value))
  | ⟨some (.vobj entries), m⟩ => ⟨some (collectMap entries), m⟩
  | ⟨some .null, m⟩ => ⟨none, m⟩
  | ⟨none, m⟩ => ⟨none, m⟩
  | ⟨some v, m⟩ => ⟨none, m.addUnexpectedValueError "an object" v⟩

/-- Modelled from the spec: `ToValue` for strings. -/
def stringToValue (a : Annotated String) : Annotated Value :=
  ⟨a.value.map .vstr, a.meta⟩

/-- Modelled from the spec: `ToValue` for unsigned integers. -/
def u64ToValue (a : Annotated Nat) : Annotated Value :=
  ⟨a.value.map .vu64, a.meta⟩

/-- Modelled from the spec: `ToValue` for booleans. -/
def boolToValue (a : Annotated Bool) : Annotated Value :=
  ⟨a.value.map .vbool, a.meta⟩

/-- Modelled from the spec: `ToValue` for string arrays. -/
def arrayStringToValue (a : Annotated (List (Annotated String))) : Annotated Value :=
  ⟨a.value.map (fun l => .varr (l.map stringToValue)), a.meta⟩

/-- Modelled from the spec: `ToValue` for string objects. -/
def objectStringToValue (a : Annotated (SMap (Annotated String))) : Annotated Value :=
  ⟨a.value.map (fun l => .vobj (l.map (fun e => (e.1, stringToValue e.2)))), a.meta⟩

/-- Modelled from the spec: `ToValue` for value objects. -/
def objectValueToValue (a : Annotated (SMap (Annotated Value))) : Annotated Value :=
  ⟨a.value.map .vobj, a.meta⟩

theorem stringFromValue_stringToValue (a : Annotated String) :
    stringFromValue (stringToValue a) = a := by
  rcases a with ⟨v, m⟩
  cases v <;> rfl

theorem u64FromValue_u64ToValue (a : Annotated Nat) :
    u64FromValue (u64ToValue a) = a := by
  rcases a with ⟨v, m⟩
  cases v <;> rfl

theorem boolFromValue_boolToValue (a : Annotated Bool) :
    boolFromValue (boolToValue a) = a := by
  rcases a with ⟨v, m⟩
  cases v <;> rfl

theorem map_id_of_eq {α : Type} {f : α → α} {l : List α} (h : ∀ a ∈ l, f a = a) :
    l.map f = l := by
  induction l with
  | nil => rfl
  | cons x t ih =>
    simp only [List.map_cons, h x (List.mem_cons_self _ _),
      ih (fun a ha => h a (List.mem_cons_of_mem _ ha))]

theorem arrayStringFromValue_toValue (a : Annotated (List (Annotated String))) :
    arrayStringFromValue (arrayStringToValue a) = a := by
  rcases a with ⟨v, m⟩
  cases v with
  | none => rfl
  | some l =>
    show (⟨some ((l.map stringToValue).map stringFromValue), m⟩ : Annotated _) = ⟨some l, m⟩
    rw [List.map_map,
      show l.map (stringFromValue ∘ stringToValue) = l from
        map_id_of_eq (fun x _ => stringFromValue_stringToValue x)]

theorem objectStringFromValue_toValue {l : SMap (Annotated String)}
    (h : MapWf l) (m : Meta) :
    objectStringFromValue (objectStringToValue ⟨some l, m⟩) = ⟨some l, m⟩ := by
  show (⟨some (collectMap ((l.map (fun e => (e.1, stringToValue e.2))).map
      (fun e => (e.1, stringFromValue e.2)))), m⟩ : Annotated _) = ⟨some l, m⟩
  rw [List.map_map,
    show l.map ((fun e => (e.1, stringFromValue e.2)) ∘
        (fun e => (e.1, stringToValue e.2))) = l from
      map_id_of_eq (fun x _ => by
        cases x
        simp [Function.comp, stringFromValue_stringToValue]),
    collectMap_sorted_id h]

theorem objectValueFromValue_toValue {l : SMap (Annotated Value)}
    (h : MapWf l) (m : Meta) :
    objectValueFromValue (objectValueToValue ⟨some l, m⟩) = ⟨some l, m⟩ := by
  show (⟨some (collectMap l), m⟩ : Annotated _) = ⟨some l, m⟩
  rw [collectMap_sorted_id h]

/-! ## Addr / RegVal: hexadecimal wire form

Modelled from the spec (§4.8): numeric integers internally, wire form
`"0x" + lowercase hex`, `"0x0"` for zero; numbers and hex strings accepted on
input, decimal strings with leading zeros rejected.  The types live in a
protocol module that is not part of the published sources. -/

/-- Modelled from the spec: memory address carried by frames. -/
structure Addr where
  addr : Nat
  deriving DecidableEq

/-- Modelled from the spec: register value of a thread. -/
structure RegVal where
  val : Nat
  deriving DecidableEq

/-- Hex digit characters, lowercase. -/
def hexDigitChar (d : Nat) : Char :=
  if d < 10 then Char.ofNat (48 + d) else Char.ofNat (87 + d)

/-- Little-endian base-16 digits, driven by a fuel bound (`fuel ≥ n` makes it
exact; the wrapper below passes `n` itself). -/
def hexRevAux : Nat → Nat → List Nat
  | _, 0 => []
  | 0, _ + 1 => []
  | f + 1, n + 1 => ((n + 1) % 16) :: hexRevAux f ((n + 1) / 16)

/-- `"0x"`-prefixed lowercase hex rendering, `"0x0"` for zero. -/
def hexRender (n : Nat) : String :=
  String.mk ('0' :: 'x' :: (if n = 0 then ['0'] else ((hexRevAux n n).reverse).map hexDigitChar))

def hexCharVal (c : Char) : Option Nat :=
  if '0' ≤ c ∧ c ≤ '9' then some (c.toNat - 48)
  else if 'a' ≤ c ∧ c ≤ 'f' then some (c.toNat - 87)
  else if 'A' ≤ c ∧ c ≤ 'F' then some (c.toNat - 55)
  else none

/-- One step of the big-endian hex accumulation. -/
def hexStep (acc : Option Nat) (c : Char) : Option Nat :=
  acc.bind (fun a => (hexCharVal c).map (fun d => 16 * a + d))

/-- Big-endian hex digit string to number; `none` on empty or invalid. -/
def parseHexChars (cs : List Char) : Option Nat :=
  if cs.isEmpty then none else cs.foldl hexStep (some 0)

def decCharVal (c : Char) : Option Nat :=
  if '0' ≤ c ∧ c ≤ '9' then some (c.toNat - 48) else none

/-- One step of the decimal accumulation. -/
def decStep (acc : Option Nat) (c : Char) : Option Nat :=
  acc.bind (fun a => (decCharVal c).map (fun d => 10 * a + d))

/-- Decimal digit string to number; leading zeros rejected. -/
def parseDecChars (cs : List Char) : Option Nat :=
  match cs with
  | [] => none
  | ['0'] => some 0
  | '0' :: _ => none
  | _ => cs.foldl decStep (some 0)

/-- Modelled from the spec: accept `"0x"`-prefixed hex or plain decimal
without leading zeros. -/
def parseAddrChars : List Char → Option Nat
  | '0' :: 'x' :: rest => parseHexChars rest
  | '0' :: 'X' :: rest => parseHexChars rest
  | cs => parseDecChars cs

def parseAddrStr (s : String) : Option Nat := parseAddrChars s.data

/-- Modelled from the spec: `Addr::from_value`. -/
def addrFromValue : Annotated Value → Annotated Addr
  | ⟨some (.vstr s), m⟩ =>
    match parseAddrStr s with
    | some n => ⟨some ⟨n⟩, m⟩
    | none => ⟨none, m.addUnexpectedValueError "an address" (.vstr s)⟩
  | ⟨some (.vu64 u), m⟩ => ⟨some ⟨u⟩, m⟩
  | ⟨some (.vi64 i), m⟩ =>
    if 0 ≤ i then ⟨some ⟨i.toNat⟩, m⟩
    else ⟨none, m.addUnexpectedValueError "an address" (.vi64 i)⟩
  | ⟨some .null, m⟩ => ⟨none, m⟩
  | ⟨none, m⟩ => ⟨none, m⟩
  | ⟨some v, m⟩ => ⟨none, m.addUnexpectedValueError "an address" v⟩

/-- Modelled from the spec: `Addr::to_value` — `"0x"` + lowercase hex. -/
def addrToValue (a : Annotated Addr) : Annotated Value :=
  ⟨a.value.map (fun x => .vstr (hexRender x.addr)), a.meta⟩

/-- Modelled from the spec: `RegVal::from_value`. -/
def regValFromValue : Annotated Value → Annotated RegVal
  | ⟨some (.vstr s), m⟩ =>
    match parseAddrStr s with
    | some n => ⟨some ⟨n⟩, m⟩
    | none => ⟨none, m.addUnexpectedValueError "a register value" (.vstr s)⟩
  | ⟨some (.vu64 u), m⟩ => ⟨some ⟨u⟩, m⟩
  | ⟨some (.vi64 i), m⟩ =>
    if 0 ≤ i then ⟨some ⟨i.toNat⟩, m⟩
    else ⟨none, m.addUnexpectedValueError "a register value" (.vi64 i)⟩
  | ⟨some .null, m⟩ => ⟨none, m⟩
  | ⟨none, m⟩ => ⟨none, m⟩
  | ⟨some v, m⟩ => ⟨none, m.addUnexpectedValueError "a register value" v⟩

/-- Modelled from the spec: `RegVal::to_value`. -/
def regValToValue (a : Annotated RegVal) : Annotated Value :=
  ⟨a.value.map (fun x => .vstr (hexRender x.val)), a.meta⟩

theorem hexRevAux_eq_digits : ∀ (f n : Nat), n ≤ f → hexRevAux f n = Nat.digits 16 n := by
  intro f
  induction f with
  | zero =>
    intro n hn
    interval_cases n
    simp [hexRevAux]
  | succ f ih =>
    intro n hn
    cases n with
    | zero => simp [hexRevAux]
    | succ m =>
      rw [hexRevAux, Nat.digits_def' (by norm_num : 1 < 16) (Nat.succ_pos m)]
      congr 1
      apply ih
      have hlt : (m + 1) / 16 < m + 1 := Nat.div_lt_self (Nat.succ_pos m) (by norm_num)
      omega

theorem hexCharVal_hexDigitChar : ∀ d, d < 16 → hexCharVal (hexDigitChar d) = some d := by
  decide

theorem foldl_hexStep_mapped :
    ∀ (ds : List Nat) (a : Nat), (∀ d ∈ ds, d < 16) →
      (ds.map hexDigitChar).foldl hexStep (some a)
        = some (ds.foldl (fun x d => 16 * x + d) a) := by
  intro ds
  induction ds with
  | nil => intro a _; rfl
  | cons d t ih =>
    intro a h
    have hd : hexCharVal (hexDigitChar d) = some d :=
      hexCharVal_hexDigitChar d (h d (List.mem_cons_self _ _))
    simp only [List.map_cons, List.foldl_cons]
    show (t.map hexDigitChar).foldl hexStep
        ((hexCharVal (hexDigitChar d)).map (fun d2 => 16 * a + d2)) = _
    rw [hd]
    show (t.map hexDigitChar).foldl hexStep (some (16 * a + d)) = _
    exact ih _ (fun x hx => h x (List.mem_cons_of_mem _ hx))

theorem foldl_hex_reverse :
    ∀ (ds : List Nat) (a : Nat),
      ds.reverse.foldl (fun x d => 16 * x + d) a
        = a * 16 ^ ds.length + Nat.ofDigits 16 ds := by
  intro ds
  induction ds with
  | nil => intro a; simp [Nat.ofDigits_nil]
  | cons d t ih =>
    intro a
    simp only [List.reverse_cons, List.foldl_append, List.foldl_cons, List.foldl_nil, ih,
      Nat.ofDigits_cons, List.length_cons]
    ring

theorem parseAddrStr_hexRender (n : Nat) : parseAddrStr (hexRender n) = some n := by
  by_cases h0 : n = 0
  · subst h0
    rfl
  · have hdig : hexRevAux n n = Nat.digits 16 n := hexRevAux_eq_digits n n le_rfl
    have hne : Nat.digits 16 n ≠ [] := Nat.digits_ne_nil_iff_ne_zero.mpr h0
    show parseAddrChars ('0' :: 'x' :: _) = some n
    rw [show parseAddrChars ('0' :: 'x' ::
        (if n = 0 then ['0'] else ((hexRevAux n n).reverse).map hexDigitChar))
        = parseHexChars (if n = 0 then ['0']
            else ((hexRevAux n n).reverse).map hexDigitChar) from rfl]
    rw [if_neg h0, hdig]
    have hlt : ∀ d ∈ (Nat.digits 16 n).reverse, d < 16 := by
      intro d hd
      exact Nat.digits_lt_base (by norm_num) (List.mem_reverse.mp hd)
    have hnonempty : ¬((Nat.digits 16 n).reverse.map hexDigitChar).isEmpty = true := by
      simp [List.isEmpty_iff, hne]
    rw [parseHexChars, if_neg hnonempty, foldl_hexStep_mapped _ 0 hlt]
    rw [foldl_hex_reverse (Nat.digits 16 n) 0]
    simp [Nat.ofDigits_digits]

theorem addrFromValue_addrToValue (a : Annotated Addr) :
    addrFromValue (addrToValue a) = a := by
  rcases a with ⟨v, m⟩
  cases v with
  | none => rfl
  | some x =>
    show addrFromValue ⟨some (.vstr (hexRender x.addr)), m⟩ = ⟨some x, m⟩
    simp only [addrFromValue, parseAddrStr_hexRender]

theorem regValFromValue_regValToValue (a : Annotated RegVal) :
    regValFromValue (regValToValue a) = a := by
  rcases a with ⟨v, m⟩
  cases v with
  | none => rfl
  | some x =>
    show regValFromValue ⟨some (.vstr (hexRender x.val)), m⟩ = ⟨some x, m⟩
    simp only [regValFromValue, parseAddrStr_hexRender]

/-! ## Header name normalization (`normalize_header`, src/protocol/request.rs) -/

/-- Modelled from the spec: Unicode-aware uppercase mapping of one character
(Rust `char::to_uppercase`, external to the repository).  ASCII letters plus
representative multi-character special casings; characters without an entry
uppercase to themselves. -/
def upperTable : List (Char × List Char) :=
  [('a', ['A']), ('b', ['B']), ('c', ['C']), ('d', ['D']), ('e', ['E']), ('f', ['F']),
   ('g', ['G']), ('h', ['H']), ('i', ['I']), ('j', ['J']), ('k', ['K']), ('l', ['L']),
   ('m', ['M']), ('n', ['N']), ('o', ['O']), ('p', ['P']), ('q', ['Q']), ('r', ['R']),
   ('s', ['S']), ('t', ['T']), ('u', ['U']), ('v', ['V']), ('w', ['W']), ('x', ['X']),
   ('y', ['Y']), ('z', ['Z']),
   ('ß', ['S', 'S']), ('ŉ', ['ʼ', 'N']), ('ﬀ', ['F', 'F']), ('ﬁ', ['F', 'I']),
   ('ﬂ', ['F', 'L']), ('ﬆ', ['S', 'T']),
   ('ΐ', ['Ϊ', Char.ofNat 769]), ('ΰ', ['Ϋ', Char.ofNat 769]),
   ('µ', ['Μ']), ('é', ['É']), ('ö', ['Ö']), ('ñ', ['Ñ'])]

/-- Uppercase expansion of a character (`char::to_uppercase` collected). -/
def charUppercase (c : Char) : List Char :=
  match upperTable.find? (fun e => e.1 = c) with
  | some e => e.2
  | none => [c]

/-- The modelled table is sane: expansions are nonempty, contain no `'-'`,
and their first character has no further expansion (checked entrywise). -/
theorem upperTable_ok :
    ∀ e ∈ upperTable, e.2 ≠ [] ∧ (∀ u ∈ e.2, u ≠ '-') ∧
      (∀ u ∈ e.2.take 1, upperTable.find? (fun x => x.1 = u) = none) := by
  decide

theorem charUppercase_ne_nil (c : Char) : charUppercase c ≠ [] := by
  unfold charUppercase
  cases hf : upperTable.find? (fun e => e.1 = c) with
  | none => simp
  | some e => exact (upperTable_ok e (List.mem_of_find?_eq_some hf)).1

theorem charUppercase_no_dash {c : Char} (h : c ≠ '-') :
    ∀ u ∈ charUppercase c, u ≠ '-' := by
  unfold charUppercase
  cases hf : upperTable.find? (fun e => e.1 = c) with
  | none =>
    intro u hu
    simp only [List.mem_singleton] at hu
    exact hu ▸ h
  | some e => exact (upperTable_ok e (List.mem_of_find?_eq_some hf)).2.1

theorem charUppercase_head_stable (c : Char) :
    ∀ u us, charUppercase c = u :: us → charUppercase u = [u] := by
  intro u us hc
  unfold charUppercase at hc ⊢
  cases hf : upperTable.find? (fun e => e.1 = c) with
  | none =>
    rw [hf] at hc
    simp only [List.cons.injEq] at hc
    obtain ⟨hc1, _⟩ := hc
    rw [hc1] at hf
    rw [hf]
  | some e =>
    rw [hf] at hc
    have hc2 : e.2 = u :: us := hc
    have h3 := (upperTable_ok e (List.mem_of_find?_eq_some hf)).2.2
    have hu : u ∈ e.2.take 1 := by
      rw [hc2]
      simp
    rw [h3 u hu]

/-! Splitting and joining on a separator, as Rust's `str::split` /
interleaved push produce them: `n` separators yield `n + 1` segments,
empty segments included. -/

def splitChar (sep : Char) : List Char → List (List Char)
  | [] => [[]]
  | c :: rest =>
    if c = sep then [] :: splitChar sep rest
    else
      match splitChar sep rest with
      | p :: ps => (c :: p) :: ps
      | [] => [[c]]

def joinChar (sep : Char) : List (List Char) → List Char
  | [] => []
  | [p] => p
  | p :: ps => p ++ sep :: joinChar sep ps

theorem splitChar_ne_nil (sep : Char) (l : List Char) : splitChar sep l ≠ [] := by
  induction l with
  | nil => simp [splitChar]
  | cons c rest ih =>
    by_cases h : c = sep
    · simp [splitChar, h]
    · simp only [splitChar, if_neg h]
      cases hs : splitChar sep rest with
      | nil => simp
      | cons p ps => simp

theorem splitChar_no_sep (sep : Char) (l : List Char) :
    ∀ p ∈ splitChar sep l, sep ∉ p := by
  induction l with
  | nil =>
    intro p hp
    simp only [splitChar, List.mem_singleton] at hp
    simp [hp]
  | cons c rest ih =>
    intro p hp
    by_cases h : c = sep
    · simp only [splitChar, if_pos h, List.mem_cons] at hp
      rcases hp with hp | hp
      · simp [hp]
      · exact ih p hp
    · simp only [splitChar, if_neg h] at hp
      cases hs : splitChar sep rest with
      | nil => exact absurd hs (splitChar_ne_nil sep rest)
      | cons q qs =>
        rw [hs] at hp
        rcases List.mem_cons.mp hp with hp | hp
        · subst hp
          intro hmem
          rcases List.mem_cons.mp hmem with g | g
          · exact h g.symm
          · exact ih q (hs ▸ List.mem_cons_self _ _) g
        · exact ih p (hs ▸ List.mem_cons_of_mem _ hp)

theorem splitChar_of_no_sep {sep : Char} {p : List Char} (h : sep ∉ p) :
    splitChar sep p = [p] := by
  induction p with
  | nil => rfl
  | cons c rest ih =>
    have hc : ¬c = sep := fun g => h (g ▸ List.mem_cons_self _ _)
    simp only [splitChar, if_neg hc]
    rw [ih (fun g => h (List.mem_cons_of_mem _ g))]

theorem splitChar_append_sep {sep : Char} {p : List Char} (t : List Char) (h : sep ∉ p) :
    splitChar sep (p ++ sep :: t) = p :: splitChar sep t := by
  induction p with
  | nil => simp [splitChar]
  | cons c rest ih =>
    have hc : ¬c = sep := fun g => h (g ▸ List.mem_cons_self _ _)
    show splitChar sep (c :: (rest ++ sep :: t)) = (c :: rest) :: splitChar sep t
    simp only [splitChar, if_neg hc, ih (fun g => h (List.mem_cons_of_mem _ g))]

theorem splitChar_joinChar {sep : Char} :
    ∀ (ps : List (List Char)), ps ≠ [] → (∀ p ∈ ps, sep ∉ p) →
      splitChar sep (joinChar sep ps) = ps := by
  intro ps
  induction ps with
  | nil => intro h _; exact absurd rfl h
  | cons p rest ih =>
    intro _ hns
    cases rest with
    | nil =>
      show splitChar sep p = [p]
      exact splitChar_of_no_sep (hns p (List.mem_cons_self _ _))
    | cons q qs =>
      show splitChar sep (p ++ sep :: joinChar sep (q :: qs)) = p :: q :: qs
      rw [splitChar_append_sep _ (hns p (List.mem_cons_self _ _)),
        ih (by simp) (fun x hx => hns x (List.mem_cons_of_mem _ hx))]

/-- Capitalize one segment: uppercase the first character (full Unicode
expansion), copy the others verbatim (from the `fold` body of
`normalize_header`). -/
def capitalizeSegment : List Char → List Char
  | [] => []
  | c :: rest => charUppercase c ++ rest

/-- Translated from `normalize_header` (src/protocol/request.rs lines
71-90): split on `'-'`, capitalize the first character of each segment, copy
the remaining characters, and rejoin with `'-'` (the source's indexed fold
pushes `'-'` before every segment except the first, which is exactly the
interleaving join). -/
def normalizeHeaderList (s : List Char) : List Char :=
  joinChar '-' ((splitChar '-' s).map capitalizeSegment)

def normalize_header (s : String) : String :=
  String.mk (normalizeHeaderList s.data)

theorem capitalizeSegment_no_dash {p : List Char} (h : '-' ∉ p) :
    '-' ∉ capitalizeSegment p := by
  cases p with
  | nil => simp [capitalizeSegment]
  | cons c rest =>
    simp only [capitalizeSegment]
    intro hmem
    rcases List.mem_append.mp hmem with g | g
    · exact charUppercase_no_dash (fun g2 => h (g2 ▸ List.mem_cons_self _ _)) _ g rfl
    · exact h (List.mem_cons_of_mem _ g)

theorem capitalizeSegment_idem (p : List Char) :
    capitalizeSegment (capitalizeSegment p) = capitalizeSegment p := by
  cases p with
  | nil => rfl
  | cons c rest =>
    simp only [capitalizeSegment]
    cases hu : charUppercase c with
    | nil => exact absurd hu (charUppercase_ne_nil c)
    | cons u us =>
      simp only [List.cons_append, capitalizeSegment,
        charUppercase_head_stable c u us hu]
      simp

theorem normalizeHeaderList_idem (s : List Char) :
    normalizeHeaderList (normalizeHeaderList s) = normalizeHeaderList s := by
  unfold normalizeHeaderList
  have h1 : (splitChar '-' s).map capitalizeSegment ≠ [] := by
    intro h
    exact splitChar_ne_nil '-' s (List.map_eq_nil_iff.mp h)
  have h2 : ∀ p ∈ (splitChar '-' s).map capitalizeSegment, '-' ∉ p := by
    intro p hp
    rcases List.mem_map.mp hp with ⟨q, hq, rfl⟩
    exact capitalizeSegment_no_dash (splitChar_no_sep '-' s q hq)
  rw [splitChar_joinChar _ h1 h2, List.map_map]
  congr 1
  exact List.map_congr_left (fun p _ => capitalizeSegment_idem p)

/-- Header normalization on strings is idempotent. -/
theorem normalize_header_idem (s : String) :
    normalize_header (normalize_header s) = normalize_header s := by
  show String.mk (normalizeHeaderList (String.mk (normalizeHeaderList s.data)).data)
      = String.mk (normalizeHeaderList s.data)
  exact congrArg String.mk (normalizeHeaderList_idem s.data)

/-! ## Compact JSON rendering of the data tree

Modelled from the spec: the JSON codec is an external collaborator (§1); this
is the compact data-only rendering used by `serde_json::to_string` for the
legacy nested-query stringification and for rendering captured original
values (`"val"`) inside `_meta`.  Annotation metadata is not rendered here;
absent values render as `null`.  Floating-point formatting (shortest
round-trip) is not modelled — no claim exercises it. -/

def jsonEscapeChar (c : Char) : List Char :=
  if c = '"' then ['\\', '"']
  else if c = '\\' then ['\\', '\\']
  else if c = Char.ofNat 10 then ['\\', 'n']
  else if c = Char.ofNat 13 then ['\\', 'r']
  else if c = Char.ofNat 9 then ['\\', 't']
  else if c = Char.ofNat 8 then ['\\', 'b']
  else if c = Char.ofNat 12 then ['\\', 'f']
  else if c.toNat < 32 then
    ['\\', 'u', '0', '0', hexDigitChar (c.toNat / 16), hexDigitChar (c.toNat % 16)]
  else [c]

/-- JSON string literal with escaping. -/
def jsonQuote (s : String) : String :=
  String.mk ('"' :: s.data.foldr (fun c acc => jsonEscapeChar c ++ acc) ['"'])

mutual

def Value.compactJson : Value → String
  | .null => "null"
  | .vbool b => if b then "true" else "false"
  | .vi64 i => toString i
  | .vu64 u => toString u
  | .vf64 bits => "f64:" ++ toString bits
  | .vstr s => jsonQuote s
  | .varr items => "[" ++ String.intercalate "," (annListCompact items) ++ "]"
  | .vobj entries => "\x7b" ++ String.intercalate "," (entryListCompact entries) ++ "\x7d"

def annListCompact : List (AnnG Value Value) → List String
  | [] => []
  | ⟨some v, _⟩ :: rest => Value.compactJson v :: annListCompact rest
  | ⟨none, _⟩ :: rest => "null" :: annListCompact rest

def entryListCompact : List (String × AnnG Value Value) → List String
  | [] => []
  | (k, ⟨some v, _⟩) :: rest => (jsonQuote k ++ ":" ++ Value.compactJson v) :: entryListCompact rest
  | (k, ⟨none, _⟩) :: rest => (jsonQuote k ++ ":null") :: entryListCompact rest

end

/-- `serde_json`-style rendering of an annotated value (drops the meta). -/
def compactJsonAnn (a : Annotated Value) : String :=
  match a.value with
  | some v => v.compactJson
  | none => "null"

/-! ## Headers (src/protocol/request.rs lines 59-158) -/

/-- A map holding headers (`Headers(pub Map<String, String>)`). -/
structure Headers where
  map : SMap (Annotated String)

/-- Modelled from the spec: `FromValue` for the derive-generated
`HeaderTuple = (Annotated<String>, Annotated<String>)` — a two-element array
maps both components through `String::from_value`; other arrays and
non-arrays fail with the original captured. -/
def headerTupleFromValue : Annotated Value → Annotated (Annotated String × Annotated String)
  | ⟨some (.varr [a, b]), m⟩ => ⟨some (stringFromValue a, stringFromValue b), m⟩
  | ⟨some (.varr items), m⟩ =>
    ⟨none, m.addError "expected a tuple of 2 elements" (some (.varr items))⟩
  | ⟨some .null, m⟩ => ⟨none, m⟩
  | ⟨none, m⟩ => ⟨none, m⟩
  | ⟨some v, m⟩ => ⟨none, m.addUnexpectedValueError "a tuple" v⟩

/-- Translated from the loop body of `Headers::from_value` (lines 99-134):
the accumulator carries the header map and the `bad_items` sequence. -/
def headersItemStep (acc : SMap (Annotated String) × List (AnnG Value Value))
    (item : AnnG Value Value) : SMap (Annotated String) × List (AnnG Value Value) :=
  match headerTupleFromValue item with
  | ⟨some (⟨some key, _⟩, ⟨v, vmeta⟩), pairMeta⟩ =>
    (mapInsert (normalize_header key) ⟨v, pairMeta.merge vmeta⟩ acc.1, acc.2)
  | ⟨some (⟨none, keyMeta⟩, val), _⟩ =>
    let v := stringToValue val
    match keyMeta.takeOriginalValue, v.value.or v.meta.takeOriginalValue with
    | some k, some w =>
      (acc.1, acc.2 ++ [Annotated.new (Value.varr [Annotated.new k, Annotated.new w])])
    | _, _ => acc
  | ⟨none, pairMeta⟩ =>
    match pairMeta.takeOriginalValue with
    | some v => (acc.1, acc.2 ++ [Annotated.new v])
    | none => acc

/-- The `bad_items` sequence collected by the loop. -/
def headersBadItems (items : List (AnnG Value Value)) : List (AnnG Value Value) :=
  (items.foldl headersItemStep ([], [])).2

/-- The header map collected by the loop. -/
def headersMapOf (items : List (AnnG Value Value)) : SMap (Annotated String) :=
  (items.foldl headersItemStep ([], [])).1

/-- Translated from `Headers::from_value` (src/protocol/request.rs lines
92-158). -/
def headersFromValue : Annotated Value → Annotated Headers
  | ⟨some (.varr items), m⟩ =>
    let st := items.foldl headersItemStep ([], [])
    ⟨some ⟨st.1⟩,
      if st.2.isEmpty then m
      else m.addError "invalid non-header values" (some (.varr st.2))⟩
  | ⟨some (.vobj items), m⟩ =>
    ⟨some ⟨collectMap (items.map (fun e => (normalize_header e.1, stringFromValue e.2)))⟩, m⟩
  | ⟨some .null, m⟩ =>
    match objectStringFromValue ⟨some .null, m⟩ with
    | ⟨v, m2⟩ => ⟨v.map Headers.mk, m2⟩
  | ⟨none, m⟩ =>
    match objectStringFromValue ⟨none, m⟩ with
    | ⟨v, m2⟩ => ⟨v.map Headers.mk, m2⟩
  | ⟨some v, m⟩ =>
    match objectStringFromValue ⟨some v, m⟩ with
    | ⟨v2, m2⟩ => ⟨v2.map Headers.mk, m2⟩

/-- Modelled from the spec: derived `ToValue` for `Headers`. -/
def headersToValue (a : Annotated Headers) : Annotated Value :=
  ⟨a.value.map (fun h => .vobj (h.map.map (fun e => (e.1, stringToValue e.2)))), a.meta⟩

/-! ## Cookies (src/protocol/request.rs lines 7-57) -/

/-- A map holding cookies (`Cookies(pub Object<String>)`). -/
structure Cookies where
  map : SMap (Annotated String)

/-- Rust `str::trim` on a character list. -/
def trimChars (l : List Char) : List Char :=
  ((l.dropWhile Char.isWhitespace).reverse.dropWhile Char.isWhitespace).reverse

/-- Split at the first occurrence of a separator; `none` when absent. -/
def splitAtChar (sep : Char) : List Char → Option (List Char × List Char)
  | [] => none
  | c :: rest =>
    if c = sep then some ([], rest)
    else (splitAtChar sep rest).map (fun p => (c :: p.1, p.2))

/-- Percent-decoding: `%HH` becomes the byte; invalid sequences are kept
verbatim.  Multi-byte UTF-8 reassembly is not modelled (no claim exercises
it). -/
def percentDecodeChars : List Char → List Char
  | [] => []
  | '%' :: h1 :: h2 :: rest =>
    match hexCharVal h1, hexCharVal h2 with
    | some a, some b => Char.ofNat (16 * a + b) :: percentDecodeChars rest
    | _, _ => '%' :: percentDecodeChars (h1 :: h2 :: rest)
  | c :: rest => c :: percentDecodeChars rest

/-- Modelled from the spec: the encoded-cookie grammar of the external
`cookie` crate (`Cookie::parse_encoded`): `name=value`, surrounding
whitespace trimmed, percent-decoding of the value; fails when `=` is missing
or the name is empty. -/
def parseEncodedCookie (s : String) : Option (String × String) :=
  match splitAtChar '=' s.data with
  | none => none
  | some nv =>
    let name := trimChars nv.1
    if name.isEmpty then none
    else some (String.mk name, String.mk (percentDecodeChars (trimChars nv.2)))

/-- Translated from the loop body of `Cookies::from_value` (lines 24-42):
the accumulator carries the cookie map and the container meta. -/
def cookiesSegStep (acc : SMap (Annotated String) × Meta) (seg : List Char) :
    SMap (Annotated String) × Meta :=
  if (trimChars seg).isEmpty then acc
  else
    match parseEncodedCookie (String.mk seg) with
    | some nv => (mapInsert nv.1 (Annotated.new nv.2) acc.1, acc.2)
    | none =>
      (acc.1, acc.2.addError "invalid cookie" (some (.vstr (String.mk seg))))

/-- Translated from `Cookies::from_value` (src/protocol/request.rs lines
19-57).  The error message for a failed segment comes from the external
cookie crate and is modelled as `"invalid cookie"`. -/
def cookiesFromValue : Annotated Value → Annotated Cookies
  | ⟨some (.vstr value), m⟩ =>
    let st := (splitChar ';' value.data).foldl cookiesSegStep ([], m)
    ⟨some ⟨st.1⟩, st.2⟩
  | ⟨some (.vobj entries), m⟩ =>
    match objectStringFromValue ⟨some (.vobj entries), m⟩ with
    | ⟨v, m2⟩ => ⟨v.map Cookies.mk, m2⟩
  | ⟨some .null, m⟩ => ⟨none, m⟩
  | ⟨none, m⟩ => ⟨none, m⟩
  | ⟨some v, m⟩ => ⟨none, m.addUnexpectedValueError "cookies" v⟩

/-- Modelled from the spec: derived `ToValue` for `Cookies`. -/
def cookiesToValue (a : Annotated Cookies) : Annotated Value :=
  ⟨a.value.map (fun c => .vobj (c.map.map (fun e => (e.1, stringToValue e.2)))), a.meta⟩

/-! ## Query (src/protocol/request.rs lines 161-220) -/

/-- A map holding query string pairs (`Query(pub Object<String>)`). -/
structure Query where
  map : SMap (Annotated String)

/-- `x-www-form-urlencoded` text decoding: `+` is space, `%HH` a byte. -/
def formDecodeChars : List Char → List Char
  | [] => []
  | '+' :: rest => ' ' :: formDecodeChars rest
  | '%' :: h1 :: h2 :: rest =>
    match hexCharVal h1, hexCharVal h2 with
    | some a, some b => Char.ofNat (16 * a + b) :: formDecodeChars rest
    | _, _ => '%' :: formDecodeChars (h1 :: h2 :: rest)
  | c :: rest => c :: formDecodeChars rest

/-- Modelled from the spec: `application/x-www-form-urlencoded` pair parsing
(the external `url::form_urlencoded` crate): split on `&`, skip empty
segments, split each at the first `=` (a segment without `=` gets an empty
value), decode key and value. -/
def urlPairs (s : String) : List (String × String) :=
  (splitChar '&' s.data).filterMap (fun seg =>
    if seg.isEmpty then none
    else some (match splitAtChar '=' seg with
      | some kv => (String.mk (formDecodeChars kv.1), String.mk (formDecodeChars kv.2))
      | none => (String.mk (formDecodeChars seg), "")))

/-- `&v[1..]` after `starts_with('?')`: strip at most one leading `?`. -/
def stripQuestionMark : List Char → List Char
  | '?' :: rest => rest
  | l => l

/-- One entry of the `Query::from_value` object branch (lines 188-207):
strings and nulls go through the default `FromValue`; arrays and objects are
re-serialized to a compact JSON string with the entry's meta preserved;
other scalars fall through to the default `FromValue`. -/
def queryEntryStep (e : String × AnnG Value Value) : String × Annotated String :=
  match e.2 with
  | ⟨some (.vstr s), m'⟩ => (e.1, stringFromValue ⟨some (.vstr s), m'⟩)
  | ⟨some .null, m'⟩ => (e.1, stringFromValue ⟨some .null, m'⟩)
  | ⟨some (.vobj o), m'⟩ =>
    (e.1, stringFromValue ⟨some (.vstr (compactJsonAnn ⟨some (.vobj o), m'⟩)), m'⟩)
  | ⟨some (.varr l), m'⟩ =>
    (e.1, stringFromValue ⟨some (.vstr (compactJsonAnn ⟨some (.varr l), m'⟩)), m'⟩)
  | v => (e.1, stringFromValue v)

/-- The query-string branch: fold the decoded pairs into the map (duplicate
keys: the later insert replaces the earlier binding). -/
def queryStringMap (qs : String) : SMap (Annotated String) :=
  (urlPairs qs).foldl (fun rv kv => mapInsert kv.1 (Annotated.new kv.2) rv) []

/-- Translated from `Query::from_value` (src/protocol/request.rs lines
173-220). -/
def queryFromValue : Annotated Value → Annotated Query
  | ⟨some (.vstr v), m⟩ =>
    ⟨some ⟨queryStringMap (String.mk (stripQuestionMark v.data))⟩, m⟩
  | ⟨some (.vobj items), m⟩ =>
    ⟨some ⟨collectMap (items.map queryEntryStep)⟩, m⟩
  | ⟨some .null, m⟩ => ⟨none, m⟩
  | ⟨none, m⟩ => ⟨none, m⟩
  | ⟨some v, m⟩ => ⟨none, m.addUnexpectedValueError "query-string or map" v⟩

/-- Modelled from the spec: derived `ToValue` for `Query`. -/
def queryToValue (a : Annotated Query) : Annotated Value :=
  ⟨a.value.map (fun q => .vobj (q.map.map (fun e => (e.1, stringToValue e.2)))), a.meta⟩

/-! ## Derived record FromValue / ToValue

Modelled from the spec: the per-record conversions are synthesized by the
crate's derive macros (not part of the published sources).  `from_value` on
an object pulls each declared key (after `field` renaming) through the field
type's own `FromValue` — a missing key contributes `(None, empty)` — and
collects unknown keys into the `additional_properties` sink; `to_value`
emits declared fields in order (omitting fields that are absent with empty
meta, §4.5) followed by the `other` entries, into the ordered map. -/

/-- Pull one key out of an object's entries; missing keys are absent. -/
def objGet (entries : List (String × AnnG Value Value)) (k : String) : Annotated Value :=
  match mapLookup k entries with
  | some a => a
  | none => ⟨none, Meta.empty⟩

/-- The contribution of one declared field to the serialized object:
nothing when the field is absent with empty meta, else one entry. -/
def mfield (name : String) (a : Annotated Value) : List (String × AnnG Value Value) :=
  if a.value.isNone && a.meta.isEmptyB then [] else [(name, a)]

/-- Meta canonicalization of one annotated field: an absent value with
otherwise empty meta carries no leftover captured original. -/
def AnnCanon {α : Type} (a : Annotated α) : Prop :=
  (a.value.isNone && a.meta.isEmptyB) = true → a.meta.originalValue.isNone = true

instance {α : Type} (a : Annotated α) : Decidable (AnnCanon a) := by
  unfold AnnCanon
  infer_instance

/-- A predicate on the payload of a present value; trivial when absent. -/
def OptOn {α : Type} (P : α → Prop) : Option α → Prop
  | some x => P x
  | none => True

instance {α : Type} (P : α → Prop) [DecidablePred P] :
    (o : Option α) → Decidable (OptOn P o)
  | some x => (inferInstance : Decidable (P x))
  | none => isTrue trivial

theorem meta_eq_empty {m : Meta} (hb : m.isEmptyB = true)
    (ho : m.originalValue.isNone = true) : m = Meta.empty := by
  rcases m with ⟨e, r, ol, ov⟩
  simp only [MetaG.isEmptyB, Bool.and_eq_true, List.isEmpty_iff, Option.isNone_iff_eq_none] at hb ho
  obtain ⟨⟨he, hr⟩, hl⟩ := hb
  subst he hr hl ho
  rfl

theorem objGet_collect (full : List (String × AnnG Value Value)) (q : String) :
    objGet (collectMap full) q
      = match (full.filter (fun e => e.1 = q)).getLast? with
        | some e => e.2
        | none => ⟨none, Meta.empty⟩ := by
  unfold objGet
  rw [collectMap, mapLookup_foldl]
  cases (full.filter (fun e => e.1 = q)).getLast? with
  | none => rfl
  | some e => rfl

theorem filter_mfield_self (n : String) (a : Annotated Value) :
    (mfield n a).filter (fun e => e.1 = n) = mfield n a := by
  unfold mfield
  by_cases hs : (a.value.isNone && a.meta.isEmptyB) = true
  · rw [if_pos hs]
    rfl
  · rw [if_neg hs]
    simp [List.filter]

theorem filter_mfield_ne {q n : String} (h : n ≠ q) (a : Annotated Value) :
    (mfield n a).filter (fun e => e.1 = q) = [] := by
  unfold mfield
  by_cases hs : (a.value.isNone && a.meta.isEmptyB) = true
  · rw [if_pos hs]
    rfl
  · rw [if_neg hs]
    simp [List.filter, h]

/-- The generic per-field argument: pulling a declared field back out of its
`mfield` contribution through the field's `FromValue` restores it, provided
the conversion round-trips on the lowered field, absence maps to absence,
and the field is canonical. -/
theorem field_extract {α : Type} (FV : Annotated Value → Annotated α) (n : String)
    (low : Annotated Value) (a : Annotated α)
    (hval : low.value.isNone = a.value.isNone) (hmeta : low.meta = a.meta)
    (hround : FV low = a)
    (hnone : FV ⟨none, Meta.empty⟩ = ⟨none, Meta.empty⟩)
    (hcanon : AnnCanon a) :
    FV (match (mfield n low).getLast? with
        | some e => e.2
        | none => ⟨none, Meta.empty⟩) = a := by
  unfold mfield
  by_cases hs : (low.value.isNone && low.meta.isEmptyB) = true
  · rw [if_pos hs]
    simp only [List.getLast?_nil]
    obtain ⟨h1, h2⟩ : low.value.isNone = true ∧ low.meta.isEmptyB = true := by
      simpa using hs
    have hcan : a.meta.originalValue.isNone = true := by
      apply hcanon
      rw [← hval, ← hmeta]
      exact hs
    have hmeta2 : low.meta = Meta.empty := by
      rw [hmeta] at h2 ⊢
      exact meta_eq_empty h2 hcan
    have hval2 : low.value = none := Option.isNone_iff_eq_none.mp h1
    have hlow : low = ⟨none, Meta.empty⟩ := by
      rcases low with ⟨lv, lm⟩
      simp only at hval2 hmeta2
      rw [hval2, hmeta2]
    rw [hlow] at hround
    rw [hnone] at hround
    rw [hnone]
    exact hround
  · rw [if_neg hs]
    simp only [List.getLast?_singleton]
    exact hround

/-! Round-trip lemmas for the container types. -/

theorem headersFromValue_headersToValue (a : Annotated Headers)
    (hwf : OptOn (fun h => MapWf h.map ∧ ∀ e ∈ h.map, normalize_header e.1 = e.1)
      a.value) :
    headersFromValue (headersToValue a) = a := by
  rcases a with ⟨v, m⟩
  cases v with
  | none => rfl
  | some h =>
    obtain ⟨hwfm, hnorm⟩ := hwf
    show headersFromValue ⟨some (.vobj (h.map.map (fun e => (e.1, stringToValue e.2)))), m⟩
        = ⟨some h, m⟩
    show (⟨some ⟨collectMap ((h.map.map (fun e => (e.1, stringToValue e.2))).map
        (fun e => (normalize_header e.1, stringFromValue e.2)))⟩, m⟩ : Annotated Headers)
        = ⟨some h, m⟩
    rw [List.map_map,
      show h.map.map ((fun e => (normalize_header e.1, stringFromValue e.2)) ∘
          (fun e => (e.1, stringToValue e.2))) = h.map from
        map_id_of_eq (fun x hx => by
          rcases x with ⟨xk, xv⟩
          simp only [Function.comp_apply, stringFromValue_stringToValue]
          rw [hnorm ⟨xk, xv⟩ hx]),
      collectMap_sorted_id hwfm]

theorem cookiesFromValue_cookiesToValue (a : Annotated Cookies)
    (hwf : OptOn (fun c => MapWf c.map) a.value) :
    cookiesFromValue (cookiesToValue a) = a := by
  rcases a with ⟨v, m⟩
  cases v with
  | none => rfl
  | some c =>
    show cookiesFromValue ⟨some (.vobj (c.map.map (fun e => (e.1, stringToValue e.2)))), m⟩
        = ⟨some c, m⟩
    have hobj := objectStringFromValue_toValue (l := c.map) hwf m
    show (match objectStringFromValue ⟨some (.vobj
        (c.map.map (fun e => (e.1, stringToValue e.2)))), m⟩ with
      | ⟨v2, m2⟩ => (⟨v2.map Cookies.mk, m2⟩ : Annotated Cookies)) = ⟨some c, m⟩
    have : objectStringFromValue ⟨some (.vobj
        (c.map.map (fun e => (e.1, stringToValue e.2)))), m⟩ = ⟨some c.map, m⟩ := hobj
    rw [this]
    rfl

theorem queryEntryStep_roundtrip (e : String × Annotated String) :
    queryEntryStep (e.1, stringToValue e.2) = e := by
  rcases e with ⟨k, ⟨v, m⟩⟩
  cases v with
  | none => rfl
  | some s => rfl

theorem queryFromValue_queryToValue (a : Annotated Query)
    (hwf : OptOn (fun q => MapWf q.map) a.value) :
    queryFromValue (queryToValue a) = a := by
  rcases a with ⟨v, m⟩
  cases v with
  | none => rfl
  | some q =>
    show queryFromValue ⟨some (.vobj (q.map.map (fun e => (e.1, stringToValue e.2)))), m⟩
        = ⟨some q, m⟩
    show (⟨some ⟨collectMap ((q.map.map (fun e => (e.1, stringToValue e.2))).map
        queryEntryStep)⟩, m⟩ : Annotated Query) = ⟨some q, m⟩
    rw [List.map_map,
      show q.map.map (queryEntryStep ∘ (fun e => (e.1, stringToValue e.2))) = q.map from
        map_id_of_eq (fun x _ => queryEntryStep_roundtrip x),
      collectMap_sorted_id hwf]

theorem mem_mfield {e : String × AnnG Value Value} {n : String} {a : Annotated Value}
    (h : e ∈ mfield n a) : e.1 = n := by
  unfold mfield at h
  by_cases hs : (a.value.isNone && a.meta.isEmptyB) = true
  · rw [if_pos hs] at h
    exact absurd h (List.not_mem_nil e)
  · rw [if_neg hs] at h
    rw [List.mem_singleton.mp h]

theorem filter_mfield (n q : String) (a : Annotated Value) :
    (mfield n a).filter (fun e => e.1 = q) = if n = q then mfield n a else [] := by
  by_cases h : n = q
  · subst h
    rw [if_pos rfl]
    exact filter_mfield_self n a
  · rw [if_neg h]
    exact filter_mfield_ne h a

/-! ## The Request record (src/protocol/request.rs lines 222-265) -/

/-- Translated from `struct Request`: declared fields in source order plus
the `additional_properties` sink `other`. -/
structure Request where
  url : Annotated String
  method : Annotated String
  data : Annotated Value
  query_string : Annotated Query
  fragment : Annotated String
  cookies : Annotated Cookies
  headers : Annotated Headers
  env : Annotated (SMap (Annotated Value))
  inferred_content_type : Annotated String
  other : SMap (Annotated Value)

/-- The declared JSON keys of `Request`. -/
def requestFieldNames : List String :=
  ["url", "method", "data", "query_string", "fragment", "cookies", "headers",
   "env", "inferred_content_type"]

/-- Modelled from the spec: the derive-generated `Request::from_value`. -/
def requestFromValue : Annotated Value → Annotated Request
  | ⟨some (.vobj entries), m⟩ =>
    ⟨some {
      url := stringFromValue (objGet entries "url")
      method := stringFromValue (objGet entries "method")
      data := valueFromValue (objGet entries "data")
      query_string := queryFromValue (objGet entries "query_string")
      fragment := stringFromValue (objGet entries "fragment")
      cookies := cookiesFromValue (objGet entries "cookies")
      headers := headersFromValue (objGet entries "headers")
      env := objectValueFromValue (objGet entries "env")
      inferred_content_type := stringFromValue (objGet entries "inferred_content_type")
      other := collectMap (entries.filter
        (fun e => !requestFieldNames.contains e.1)) }, m⟩
  | ⟨some .null, m⟩ => ⟨none, m⟩
  | ⟨none, m⟩ => ⟨none, m⟩
  | ⟨some v, m⟩ => ⟨none, m.addUnexpectedValueError "a request" v⟩

/-- Modelled from the spec: the derive-generated `Request::to_value` payload
(declared fields in order, then `other`, collected into the ordered map). -/
def requestToValue (r : Request) : Value :=
  .vobj (collectMap (
    mfield "url" (stringToValue r.url) ++
    mfield "method" (stringToValue r.method) ++
    mfield "data" r.data ++
    mfield "query_string" (queryToValue r.query_string) ++
    mfield "fragment" (stringToValue r.fragment) ++
    mfield "cookies" (cookiesToValue r.cookies) ++
    mfield "headers" (headersToValue r.headers) ++
    mfield "env" (objectValueToValue r.env) ++
    mfield "inferred_content_type" (stringToValue r.inferred_content_type) ++
    r.other))

/-- `ToValue` on the annotated `Request`. -/
def requestToValueA (a : Annotated Request) : Annotated Value :=
  ⟨a.value.map requestToValue, a.meta⟩

/-- Well-formed `Request` values: canonical metas, well-formed inner maps,
normalized header names, and `other` keys sorted and disjoint from the
declared keys. -/
def WfRequest (r : Request) : Prop :=
  AnnCanon r.url ∧ AnnCanon r.method ∧ AnnCanon r.data ∧ AnnCanon r.query_string ∧
  AnnCanon r.fragment ∧ AnnCanon r.cookies ∧ AnnCanon r.headers ∧ AnnCanon r.env ∧
  AnnCanon r.inferred_content_type ∧
  OptOn (fun q : Query => MapWf q.map) r.query_string.value ∧
  OptOn (fun c : Cookies => MapWf c.map) r.cookies.value ∧
  OptOn (fun h : Headers => MapWf h.map ∧ ∀ e ∈ h.map, normalize_header e.1 = e.1)
    r.headers.value ∧
  OptOn (fun o : SMap (Annotated Value) => MapWf o) r.env.value ∧
  MapWf r.other ∧
  (∀ e ∈ r.other, requestFieldNames.contains e.1 = false)

instance (r : Request) : Decidable (WfRequest r) := by
  unfold WfRequest
  infer_instance

theorem isNone_map {α β : Type} (o : Option α) (f : α → β) :
    (o.map f).isNone = o.isNone := by
  cases o <;> rfl

/-- The `other` sink survives the round trip: filtering the collected object
by non-declared keys recovers exactly the original `other` map. -/
theorem other_recover (decls : List (String × AnnG Value Value))
    (ot : SMap (Annotated Value)) (names : List String)
    (hdecl : ∀ e ∈ decls, names.contains e.1 = true)
    (hwo : MapWf ot)
    (hdisj : ∀ e ∈ ot, names.contains e.1 = false) :
    (collectMap (decls ++ ot)).filter (fun e => !names.contains e.1) = ot := by
  rw [collectMap, List.foldl_append]
  rw [filter_foldl_pos (p := fun k => !names.contains k) ot _ (MapWf.foldl List.Pairwise.nil)
    (fun e he => by simpa using hdisj e he)]
  rw [filter_foldl_neg (p := fun k => !names.contains k) decls [] (fun e he => by simpa using hdecl e he)]
  have hnil : List.filter (fun e => (fun k => !names.contains k) e.1)
      ([] : SMap (Annotated Value)) = [] := rfl
  rw [hnil]
  exact foldl_insert_of_sorted ot [] (by simpa using hwo)

theorem requestFromValue_requestToValue (r : Request) (m : Meta) (h : WfRequest r) :
    requestFromValue (requestToValueA ⟨some r, m⟩) = ⟨some r, m⟩ := by
  obtain ⟨hc1, hc2, hc3, hc4, hc5, hc6, hc7, hc8, hc9, hq, hck, hhd, henv, hwo, hdisj⟩ := h
  rcases r with ⟨u, me, da, qs, fr, ck, hd, en, ict, ot⟩
  have hother : ∀ q : String, requestFieldNames.contains q = true →
      ot.filter (fun e => e.1 = q) = [] := by
    intro q hq2
    rw [List.filter_eq_nil_iff]
    intro e he
    simp only [decide_eq_true_eq]
    intro heq
    have hco := hdisj e he
    rw [heq] at hco
    rw [hco] at hq2
    exact Bool.false_ne_true hq2
  set FULL := mfield "url" (stringToValue u) ++ mfield "method" (stringToValue me) ++
      mfield "data" da ++ mfield "query_string" (queryToValue qs) ++
      mfield "fragment" (stringToValue fr) ++ mfield "cookies" (cookiesToValue ck) ++
      mfield "headers" (headersToValue hd) ++ mfield "env" (objectValueToValue en) ++
      mfield "inferred_content_type" (stringToValue ict) ++ ot with hFULLdef
  have hu : stringFromValue (objGet (collectMap FULL) "url") = u := by
    rw [objGet_collect]
    rw [show FULL.filter (fun e => e.1 = "url") = mfield "url" (stringToValue u) from by
      rw [hFULLdef]
      simp [List.filter_append, filter_mfield, hother "url" (by decide)]]
    exact field_extract stringFromValue "url" _ u (isNone_map u.value _) rfl
      (stringFromValue_stringToValue u) rfl hc1
  have hme : stringFromValue (objGet (collectMap FULL) "method") = me := by
    rw [objGet_collect]
    rw [show FULL.filter (fun e => e.1 = "method") = mfield "method" (stringToValue me) from by
      rw [hFULLdef]
      simp [List.filter_append, filter_mfield, hother "method" (by decide)]]
    exact field_extract stringFromValue "method" _ me (isNone_map me.value _) rfl
      (stringFromValue_stringToValue me) rfl hc2
  have hda : valueFromValue (objGet (collectMap FULL) "data") = da := by
    rw [objGet_collect]
    rw [show FULL.filter (fun e => e.1 = "data") = mfield "data" da from by
      rw [hFULLdef]
      simp [List.filter_append, filter_mfield, hother "data" (by decide)]]
    exact field_extract valueFromValue "data" _ da rfl rfl rfl rfl hc3
  have hqs : queryFromValue (objGet (collectMap FULL) "query_string") = qs := by
    rw [objGet_collect]
    rw [show FULL.filter (fun e => e.1 = "query_string")
        = mfield "query_string" (queryToValue qs) from by
      rw [hFULLdef]
      simp [List.filter_append, filter_mfield, hother "query_string" (by decide)]]
    exact field_extract queryFromValue "query_string" _ qs (isNone_map qs.value _) rfl
      (queryFromValue_queryToValue qs hq) rfl hc4
  have hfr : stringFromValue (objGet (collectMap FULL) "fragment") = fr := by
    rw [objGet_collect]
    rw [show FULL.filter (fun e => e.1 = "fragment") = mfield "fragment" (stringToValue fr) from by
      rw [hFULLdef]
      simp [List.filter_append, filter_mfield, hother "fragment" (by decide)]]
    exact field_extract stringFromValue "fragment" _ fr (isNone_map fr.value _) rfl
      (stringFromValue_stringToValue fr) rfl hc5
  have hckf : cookiesFromValue (objGet (collectMap FULL) "cookies") = ck := by
    rw [objGet_collect]
    rw [show FULL.filter (fun e => e.1 = "cookies") = mfield "cookies" (cookiesToValue ck) from by
      rw [hFULLdef]
      simp [List.filter_append, filter_mfield, hother "cookies" (by decide)]]
    exact field_extract cookiesFromValue "cookies" _ ck (isNone_map ck.value _) rfl
      (cookiesFromValue_cookiesToValue ck hck) rfl hc6
  have hhdf : headersFromValue (objGet (collectMap FULL) "headers") = hd := by
    rw [objGet_collect]
    rw [show FULL.filter (fun e => e.1 = "headers") = mfield "headers" (headersToValue hd) from by
      rw [hFULLdef]
      simp [List.filter_append, filter_mfield, hother "headers" (by decide)]]
    exact field_extract headersFromValue "headers" _ hd (isNone_map hd.value _) rfl
      (headersFromValue_headersToValue hd hhd) rfl hc7
  have henf : objectValueFromValue (objGet (collectMap FULL) "env") = en := by
    rw [objGet_collect]
    rw [show FULL.filter (fun e => e.1 = "env") = mfield "env" (objectValueToValue en) from by
      rw [hFULLdef]
      simp [List.filter_append, filter_mfield, hother "env" (by decide)]]
    refine field_extract objectValueFromValue "env" _ en (isNone_map en.value _) rfl ?_ rfl hc8
    rcases en with ⟨env, em⟩
    cases env with
    | none => rfl
    | some l => exact objectValueFromValue_toValue henv em
  have hictf : stringFromValue (objGet (collectMap FULL) "inferred_content_type") = ict := by
    rw [objGet_collect]
    rw [show FULL.filter (fun e => e.1 = "inferred_content_type")
        = mfield "inferred_content_type" (stringToValue ict) from by
      rw [hFULLdef]
      simp [List.filter_append, filter_mfield, hother "inferred_content_type" (by decide)]]
    exact field_extract stringFromValue "inferred_content_type" _ ict (isNone_map ict.value _)
      rfl (stringFromValue_stringToValue ict) rfl hc9
  have hotf : collectMap ((collectMap FULL).filter
      (fun e => !requestFieldNames.contains e.1)) = ot := by
    have hsplit : FULL = (mfield "url" (stringToValue u) ++ mfield "method" (stringToValue me) ++
        mfield "data" da ++ mfield "query_string" (queryToValue qs) ++
        mfield "fragment" (stringToValue fr) ++ mfield "cookies" (cookiesToValue ck) ++
        mfield "headers" (headersToValue hd) ++ mfield "env" (objectValueToValue en) ++
        mfield "inferred_content_type" (stringToValue ict)) ++ ot := hFULLdef
    rw [hsplit, other_recover _ _ _ ?_ hwo hdisj]
    · exact collectMap_sorted_id hwo
    · intro e he
      simp only [List.mem_append, or_assoc] at he
      rcases he with he | he | he | he | he | he | he | he | he <;>
        rw [mem_mfield he] <;> decide
  show (⟨some {
      url := stringFromValue (objGet (collectMap FULL) "url")
      method := stringFromValue (objGet (collectMap FULL) "method")
      data := valueFromValue (objGet (collectMap FULL) "data")
      query_string := queryFromValue (objGet (collectMap FULL) "query_string")
      fragment := stringFromValue (objGet (collectMap FULL) "fragment")
      cookies := cookiesFromValue (objGet (collectMap FULL) "cookies")
      headers := headersFromValue (objGet (collectMap FULL) "headers")
      env := objectValueFromValue (objGet (collectMap FULL) "env")
      inferred_content_type := stringFromValue (objGet (collectMap FULL) "inferred_content_type")
      other := collectMap ((collectMap FULL).filter
        (fun e => !requestFieldNames.contains e.1)) }, m⟩ : Annotated Request)
      = ⟨some ⟨u, me, da, qs, fr, ck, hd, en, ict, ot⟩, m⟩
  rw [hu, hme, hda, hqs, hfr, hckf, hhdf, henf, hictf, hotf]

/-! ## The Frame and Stacktrace records (src/protocol/stacktrace.rs) -/

/-- Translated from `struct Frame`: declared fields in source order plus the
`additional_properties` sink.  `line`/`column`/`pre_lines`/`current_line`/
`post_lines` carry the JSON aliases `lineno`/`colno`/`pre_context`/
`context_line`/`post_context`. -/
structure Frame where
  function : Annotated String
  symbol : Annotated String
  module : Annotated String
  package : Annotated String
  filename : Annotated String
  abs_path : Annotated String
  line : Annotated Nat
  column : Annotated Nat
  pre_lines : Annotated (List (Annotated String))
  current_line : Annotated String
  post_lines : Annotated (List (Annotated String))
  in_app : Annotated Bool
  vars : Annotated (SMap (Annotated Value))
  image_addr : Annotated Addr
  instruction_addr : Annotated Addr
  symbol_addr : Annotated Addr
  trust : Annotated String
  other : SMap (Annotated Value)

/-- The declared JSON keys of `Frame` (after `field` renaming). -/
def frameFieldNames : List String :=
  ["function", "symbol", "module", "package", "filename", "abs_path", "lineno",
   "colno", "pre_context", "context_line", "post_context", "in_app", "vars",
   "image_addr", "instruction_addr", "symbol_addr", "trust"]

/-- Modelled from the spec: the derive-generated `Frame::from_value`. -/
def frameFromValue : Annotated Value → Annotated Frame
  | ⟨some (.vobj entries), m⟩ =>
    ⟨some {
      function := stringFromValue (objGet entries "function")
      symbol := stringFromValue (objGet entries "symbol")
      module := stringFromValue (objGet entries "module")
      package := stringFromValue (objGet entries "package")
      filename := stringFromValue (objGet entries "filename")
      abs_path := stringFromValue (objGet entries "abs_path")
      line := u64FromValue (objGet entries "lineno")
      column := u64FromValue (objGet entries "colno")
      pre_lines := arrayStringFromValue (objGet entries "pre_context")
      current_line := stringFromValue (objGet entries "context_line")
      post_lines := arrayStringFromValue (objGet entries "post_context")
      in_app := boolFromValue (objGet entries "in_app")
      vars := objectValueFromValue (objGet entries "vars")
      image_addr := addrFromValue (objGet entries "image_addr")
      instruction_addr := addrFromValue (objGet entries "instruction_addr")
      symbol_addr := addrFromValue (objGet entries "symbol_addr")
      trust := stringFromValue (objGet entries "trust")
      other := collectMap (entries.filter
        (fun e => !frameFieldNames.contains e.1)) }, m⟩
  | ⟨some .null, m⟩ => ⟨none, m⟩
  | ⟨none, m⟩ => ⟨none, m⟩
  | ⟨some v, m⟩ => ⟨none, m.addUnexpectedValueError "a frame" v⟩

/-- Modelled from the spec: the derive-generated `Frame::to_value` payload. -/
def frameToValue (f : Frame) : Value :=
  .vobj (collectMap (
    mfield "function" (stringToValue f.function) ++
    mfield "symbol" (stringToValue f.symbol) ++
    mfield "module" (stringToValue f.module) ++
    mfield "package" (stringToValue f.package) ++
    mfield "filename" (stringToValue f.filename) ++
    mfield "abs_path" (stringToValue f.abs_path) ++
    mfield "lineno" (u64ToValue f.line) ++
    mfield "colno" (u64ToValue f.column) ++
    mfield "pre_context" (arrayStringToValue f.pre_lines) ++
    mfield "context_line" (stringToValue f.current_line) ++
    mfield "post_context" (arrayStringToValue f.post_lines) ++
    mfield "in_app" (boolToValue f.in_app) ++
    mfield "vars" (objectValueToValue f.vars) ++
    mfield "image_addr" (addrToValue f.image_addr) ++
    mfield "instruction_addr" (addrToValue f.instruction_addr) ++
    mfield "symbol_addr" (addrToValue f.symbol_addr) ++
    mfield "trust" (stringToValue f.trust) ++
    f.other))

/-- `ToValue` on the annotated `Frame`. -/
def frameToValueA (a : Annotated Frame) : Annotated Value :=
  ⟨a.value.map frameToValue, a.meta⟩

/-- Well-formed `Frame` values. -/
def WfFrame (f : Frame) : Prop :=
  AnnCanon f.function ∧ AnnCanon f.symbol ∧ AnnCanon f.module ∧ AnnCanon f.package ∧
  AnnCanon f.filename ∧ AnnCanon f.abs_path ∧ AnnCanon f.line ∧ AnnCanon f.column ∧
  AnnCanon f.pre_lines ∧ AnnCanon f.current_line ∧ AnnCanon f.post_lines ∧
  AnnCanon f.in_app ∧ AnnCanon f.vars ∧ AnnCanon f.image_addr ∧
  AnnCanon f.instruction_addr ∧ AnnCanon f.symbol_addr ∧ AnnCanon f.trust ∧
  OptOn (fun o : SMap (Annotated Value) => MapWf o) f.vars.value ∧
  MapWf f.other ∧
  (∀ e ∈ f.other, frameFieldNames.contains e.1 = false)

instance (f : Frame) : Decidable (WfFrame f) := by
  unfold WfFrame
  infer_instance

theorem frameFromValue_frameToValue (f : Frame) (m : Meta) (h : WfFrame f) :
    frameFromValue (frameToValueA ⟨some f, m⟩) = ⟨some f, m⟩ := by
  obtain ⟨g1, g2, g3, g4, g5, g6, g7, g8, g9, g10, g11, g12, g13, g14, g15, g16, g17,
    hv, hwo, hdisj⟩ := h
  rcases f with ⟨f1, f2, f3, f4, f5, f6, f7, f8, f9, f10, f11, f12, f13, f14, f15, f16, f17, ot⟩
  have hother : ∀ q : String, frameFieldNames.contains q = true →
      ot.filter (fun e => e.1 = q) = [] := by
    intro q hq2
    rw [List.filter_eq_nil_iff]
    intro e he
    simp only [decide_eq_true_eq]
    intro heq
    have hco := hdisj e he
    rw [heq] at hco
    rw [hco] at hq2
    exact Bool.false_ne_true hq2
  set FULL := mfield "function" (stringToValue f1) ++ mfield "symbol" (stringToValue f2) ++
      mfield "module" (stringToValue f3) ++ mfield "package" (stringToValue f4) ++
      mfield "filename" (stringToValue f5) ++ mfield "abs_path" (stringToValue f6) ++
      mfield "lineno" (u64ToValue f7) ++ mfield "colno" (u64ToValue f8) ++
      mfield "pre_context" (arrayStringToValue f9) ++
      mfield "context_line" (stringToValue f10) ++
      mfield "post_context" (arrayStringToValue f11) ++
      mfield "in_app" (boolToValue f12) ++ mfield "vars" (objectValueToValue f13) ++
      mfield "image_addr" (addrToValue f14) ++
      mfield "instruction_addr" (addrToValue f15) ++
      mfield "symbol_addr" (addrToValue f16) ++ mfield "trust" (stringToValue f17) ++
      ot with hFULLdef
  have e1 : stringFromValue (objGet (collectMap FULL) "function") = f1 := by
    rw [objGet_collect]
    rw [show FULL.filter (fun e => e.1 = "function") = mfield "function" (stringToValue f1) from by
      rw [hFULLdef]
      simp [List.filter_append, filter_mfield, hother "function" (by decide)]]
    exact field_extract stringFromValue "function" _ f1 (isNone_map f1.value _) rfl
      (stringFromValue_stringToValue f1) rfl g1
  have e2 : stringFromValue (objGet (collectMap FULL) "symbol") = f2 := by
    rw [objGet_collect]
    rw [show FULL.filter (fun e => e.1 = "symbol") = mfield "symbol" (stringToValue f2) from by
      rw [hFULLdef]
      simp [List.filter_append, filter_mfield, hother "symbol" (by decide)]]
    exact field_extract stringFromValue "symbol" _ f2 (isNone_map f2.value _) rfl
      (stringFromValue_stringToValue f2) rfl g2
  have e3 : stringFromValue (objGet (collectMap FULL) "module") = f3 := by
    rw [objGet_collect]
    rw [show FULL.filter (fun e => e.1 = "module") = mfield "module" (stringToValue f3) from by
      rw [hFULLdef]
      simp [List.filter_append, filter_mfield, hother "module" (by decide)]]
    exact field_extract stringFromValue "module" _ f3 (isNone_map f3.value _) rfl
      (stringFromValue_stringToValue f3) rfl g3
  have e4 : stringFromValue (objGet (collectMap FULL) "package") = f4 := by
    rw [objGet_collect]
    rw [show FULL.filter (fun e => e.1 = "package") = mfield "package" (stringToValue f4) from by
      rw [hFULLdef]
      simp [List.filter_append, filter_mfield, hother "package" (by decide)]]
    exact field_extract stringFromValue "package" _ f4 (isNone_map f4.value _) rfl
      (stringFromValue_stringToValue f4) rfl g4
  have e5 : stringFromValue (objGet (collectMap FULL) "filename") = f5 := by
    rw [objGet_collect]
    rw [show FULL.filter (fun e => e.1 = "filename") = mfield "filename" (stringToValue f5) from by
      rw [hFULLdef]
      simp [List.filter_append, filter_mfield, hother "filename" (by decide)]]
    exact field_extract stringFromValue "filename" _ f5 (isNone_map f5.value _) rfl
      (stringFromValue_stringToValue f5) rfl g5
  have e6 : stringFromValue (objGet (collectMap FULL) "abs_path") = f6 := by
    rw [objGet_collect]
    rw [show FULL.filter (fun e => e.1 = "abs_path") = mfield "abs_path" (stringToValue f6) from by
      rw [hFULLdef]
      simp [List.filter_append, filter_mfield, hother "abs_path" (by decide)]]
    exact field_extract stringFromValue "abs_path" _ f6 (isNone_map f6.value _) rfl
      (stringFromValue_stringToValue f6) rfl g6
  have e7 : u64FromValue (objGet (collectMap FULL) "lineno") = f7 := by
    rw [objGet_collect]
    rw [show FULL.filter (fun e => e.1 = "lineno") = mfield "lineno" (u64ToValue f7) from by
      rw [hFULLdef]
      simp [List.filter_append, filter_mfield, hother "lineno" (by decide)]]
    exact field_extract u64FromValue "lineno" _ f7 (isNone_map f7.value _) rfl
      (u64FromValue_u64ToValue f7) rfl g7
  have e8 : u64FromValue (objGet (collectMap FULL) "colno") = f8 := by
    rw [objGet_collect]
    rw [show FULL.filter (fun e => e.1 = "colno") = mfield "colno" (u64ToValue f8) from by
      rw [hFULLdef]
      simp [List.filter_append, filter_mfield, hother "colno" (by decide)]]
    exact field_extract u64FromValue "colno" _ f8 (isNone_map f8.value _) rfl
      (u64FromValue_u64ToValue f8) rfl g8
  have e9 : arrayStringFromValue (objGet (collectMap FULL) "pre_context") = f9 := by
    rw [objGet_collect]
    rw [show FULL.filter (fun e => e.1 = "pre_context")
        = mfield "pre_context" (arrayStringToValue f9) from by
      rw [hFULLdef]
      simp [List.filter_append, filter_mfield, hother "pre_context" (by decide)]]
    exact field_extract arrayStringFromValue "pre_context" _ f9 (isNone_map f9.value _) rfl
      (arrayStringFromValue_toValue f9) rfl g9
  have e10 : stringFromValue (objGet (collectMap FULL) "context_line") = f10 := by
    rw [objGet_collect]
    rw [show FULL.filter (fun e => e.1 = "context_line")
        = mfield "context_line" (stringToValue f10) from by
      rw [hFULLdef]
      simp [List.filter_append, filter_mfield, hother "context_line" (by decide)]]
    exact field_extract stringFromValue "context_line" _ f10 (isNone_map f10.value _) rfl
      (stringFromValue_stringToValue f10) rfl g10
  have e11 : arrayStringFromValue (objGet (collectMap FULL) "post_context") = f11 := by
    rw [objGet_collect]
    rw [show FULL.filter (fun e => e.1 = "post_context")
        = mfield "post_context" (arrayStringToValue f11) from by
      rw [hFULLdef]
      simp [List.filter_append, filter_mfield, hother "post_context" (by decide)]]
    exact field_extract arrayStringFromValue "post_context" _ f11 (isNone_map f11.value _) rfl
      (arrayStringFromValue_toValue f11) rfl g11
  have e12 : boolFromValue (objGet (collectMap FULL) "in_app") = f12 := by
    rw [objGet_collect]
    rw [show FULL.filter (fun e => e.1 = "in_app") = mfield "in_app" (boolToValue f12) from by
      rw [hFULLdef]
      simp [List.filter_append, filter_mfield, hother "in_app" (by decide)]]
    exact field_extract boolFromValue "in_app" _ f12 (isNone_map f12.value _) rfl
      (boolFromValue_boolToValue f12) rfl g12
  have e13 : objectValueFromValue (objGet (collectMap FULL) "vars") = f13 := by
    rw [objGet_collect]
    rw [show FULL.filter (fun e => e.1 = "vars") = mfield "vars" (objectValueToValue f13) from by
      rw [hFULLdef]
      simp [List.filter_append, filter_mfield, hother "vars" (by decide)]]
    refine field_extract objectValueFromValue "vars" _ f13 (isNone_map f13.value _) rfl ?_ rfl g13
    rcases f13 with ⟨vv, vm⟩
    cases vv with
    | none => rfl
    | some l => exact objectValueFromValue_toValue hv vm
  have e14 : addrFromValue (objGet (collectMap FULL) "image_addr") = f14 := by
    rw [objGet_collect]
    rw [show FULL.filter (fun e => e.1 = "image_addr")
        = mfield "image_addr" (addrToValue f14) from by
      rw [hFULLdef]
      simp [List.filter_append, filter_mfield, hother "image_addr" (by decide)]]
    exact field_extract addrFromValue "image_addr" _ f14 (isNone_map f14.value _) rfl
      (addrFromValue_addrToValue f14) rfl g14
  have e15 : addrFromValue (objGet (collectMap FULL) "instruction_addr") = f15 := by
    rw [objGet_collect]
    rw [show FULL.filter (fun e => e.1 = "instruction_addr")
        = mfield "instruction_addr" (addrToValue f15) from by
      rw [hFULLdef]
      simp [List.filter_append, filter_mfield, hother "instruction_addr" (by decide)]]
    exact field_extract addrFromValue "instruction_addr" _ f15 (isNone_map f15.value _) rfl
      (addrFromValue_addrToValue f15) rfl g15
  have e16 : addrFromValue (objGet (collectMap FULL) "symbol_addr") = f16 := by
    rw [objGet_collect]
    rw [show FULL.filter (fun e => e.1 = "symbol_addr")
        = mfield "symbol_addr" (addrToValue f16) from by
      rw [hFULLdef]
      simp [List.filter_append, filter_mfield, hother "symbol_addr" (by decide)]]
    exact field_extract addrFromValue "symbol_addr" _ f16 (isNone_map f16.value _) rfl
      (addrFromValue_addrToValue f16) rfl g16
  have e17 : stringFromValue (objGet (collectMap FULL) "trust") = f17 := by
    rw [objGet_collect]
    rw [show FULL.filter (fun e => e.1 = "trust") = mfield "trust" (stringToValue f17) from by
      rw [hFULLdef]
      simp [List.filter_append, filter_mfield, hother "trust" (by decide)]]
    exact field_extract stringFromValue "trust" _ f17 (isNone_map f17.value _) rfl
      (stringFromValue_stringToValue f17) rfl g17
  have e18 : collectMap ((collectMap FULL).filter
      (fun e => !frameFieldNames.contains e.1)) = ot := by
    have hsplit : FULL = (mfield "function" (stringToValue f1) ++
        mfield "symbol" (stringToValue f2) ++ mfield "module" (stringToValue f3) ++
        mfield "package" (stringToValue f4) ++ mfield "filename" (stringToValue f5) ++
        mfield "abs_path" (stringToValue f6) ++ mfield "lineno" (u64ToValue f7) ++
        mfield "colno" (u64ToValue f8) ++ mfield "pre_context" (arrayStringToValue f9) ++
        mfield "context_line" (stringToValue f10) ++
        mfield "post_context" (arrayStringToValue f11) ++ mfield "in_app" (boolToValue f12) ++
        mfield "vars" (objectValueToValue f13) ++ mfield "image_addr" (addrToValue f14) ++
        mfield "instruction_addr" (addrToValue f15) ++
        mfield "symbol_addr" (addrToValue f16) ++ mfield "trust" (stringToValue f17)) ++ ot :=
      hFULLdef
    rw [hsplit, other_recover _ _ _ ?_ hwo hdisj]
    · exact collectMap_sorted_id hwo
    · intro e he
      simp only [List.mem_append, or_assoc] at he
      rcases he with he | he | he | he | he | he | he | he | he | he | he | he | he | he |
        he | he | he <;>
        rw [mem_mfield he] <;> decide
  show (⟨some {
      function := stringFromValue (objGet (collectMap FULL) "function")
      symbol := stringFromValue (objGet (collectMap FULL) "symbol")
      module := stringFromValue (objGet (collectMap FULL) "module")
      package := stringFromValue (objGet (collectMap FULL) "package")
      filename := stringFromValue (objGet (collectMap FULL) "filename")
      abs_path := stringFromValue (objGet (collectMap FULL) "abs_path")
      line := u64FromValue (objGet (collectMap FULL) "lineno")
      column := u64FromValue (objGet (collectMap FULL) "colno")
      pre_lines := arrayStringFromValue (objGet (collectMap FULL) "pre_context")
      current_line := stringFromValue (objGet (collectMap FULL) "context_line")
      post_lines := arrayStringFromValue (objGet (collectMap FULL) "post_context")
      in_app := boolFromValue (objGet (collectMap FULL) "in_app")
      vars := objectValueFromValue (objGet (collectMap FULL) "vars")
      image_addr := addrFromValue (objGet (collectMap FULL) "image_addr")
      instruction_addr := addrFromValue (objGet (collectMap FULL) "instruction_addr")
      symbol_addr := addrFromValue (objGet (collectMap FULL) "symbol_addr")
      trust := stringFromValue (objGet (collectMap FULL) "trust")
      other := collectMap ((collectMap FULL).filter
        (fun e => !frameFieldNames.contains e.1)) }, m⟩ : Annotated Frame)
      = ⟨some ⟨f1, f2, f3, f4, f5, f6, f7, f8, f9, f10, f11, f12, f13, f14, f15, f16, f17, ot⟩, m⟩
  rw [e1, e2, e3, e4, e5, e6, e7, e8, e9, e10, e11, e12, e13, e14, e15, e16, e17, e18]

/-- Translated from `struct Stacktrace` (src/protocol/stacktrace.rs lines
89-102): `frames` is declared `required = "true", nonempty = "true"`. -/
structure Stacktrace where
  frames : Annotated (List (Annotated Frame))
  registers : Annotated (SMap (Annotated RegVal))
  other : SMap (Annotated Value)

/-- Modelled from the spec: `Array<Frame>::from_value`. -/
def arrayFrameFromValue : Annotated Value → Annotated (List (Annotated Frame))
  | ⟨some (.varr items), m⟩ => ⟨some (items.map frameFromValue), m⟩
  | ⟨some .null, m⟩ => ⟨none, m⟩
  | ⟨none, m⟩ => ⟨none, m⟩
  | ⟨some v, m⟩ => ⟨none, m.addUnexpectedValueError "an array" v⟩

/-- Modelled from the spec: `Object<RegVal>::from_value`. -/
def objectRegValFromValue : Annotated Value → Annotated (SMap (Annotated RegVal))
  | ⟨some (.vobj entries), m⟩ =>
    ⟨some (collectMap (entries.map (fun e => (e.1, regValFromValue e.2)))), m⟩
  | ⟨some .null, m⟩ => ⟨none, m⟩
  | ⟨none, m⟩ => ⟨none, m⟩
  | ⟨some v, m⟩ => ⟨none, m.addUnexpectedValueError "an object" v⟩

/-- Modelled from the spec: the `required = true` field attribute — an
absent value that carries no recorded errors receives the synthesized error
`"value required"` with `None` value. -/
def requiredField {α : Type} (a : Annotated α) : Annotated α :=
  match a with
  | ⟨none, m⟩ =>
    if m.errors.isEmpty then ⟨none, m.addError "value required" none⟩ else ⟨none, m⟩
  | a => a

/-- Modelled from the spec: the `nonempty = true` field attribute — an empty
collection is treated as a required-violation. -/
def nonemptyListField {β : Type} (a : Annotated (List β)) : Annotated (List β) :=
  match a with
  | ⟨some [], m⟩ => ⟨none, m.addError "value required" none⟩
  | a => a

/-- The declared JSON keys of `Stacktrace`. -/
def stacktraceFieldNames : List String := ["frames", "registers"]

/-- Modelled from the spec: the derive-generated `Stacktrace::from_value`. -/
def stacktraceFromValue : Annotated Value → Annotated Stacktrace
  | ⟨some (.vobj entries), m⟩ =>
    ⟨some {
      frames := requiredField (nonemptyListField
        (arrayFrameFromValue (objGet entries "frames")))
      registers := objectRegValFromValue (objGet entries "registers")
      other := collectMap (entries.filter
        (fun e => !stacktraceFieldNames.contains e.1)) }, m⟩
  | ⟨some .null, m⟩ => ⟨none, m⟩
  | ⟨none, m⟩ => ⟨none, m⟩
  | ⟨some v, m⟩ => ⟨none, m.addUnexpectedValueError "a stacktrace" v⟩

/-! ## Data / `_meta` split serialization of annotated headers

Modelled from the spec (§4.2, §6): output is the data tree plus a `_meta`
sibling inside each object that has any annotated descendant; `_meta` keys
mirror the data keys, `""` holds the object's own meta; meta leaves
serialize as `{"err": [...], "val": <original>, "rem": [...], "len": N}`
with absent slots omitted. -/

/-- Should this meta be emitted at all? -/
def metaEmit (m : Meta) : Bool :=
  !m.errors.isEmpty || m.originalValue.isSome || !m.remarks.isEmpty ||
    m.originalLength.isSome

/-- One meta leaf: `{"err": [...], "val": ..., "rem": [...], "len": N}`. -/
def metaJson (m : Meta) : String :=
  "\x7b" ++ String.intercalate "," (
    (if m.errors.isEmpty then [] else
      ["\"err\":[" ++ String.intercalate "," (m.errors.map (fun e => jsonQuote e.1)) ++ "]"]) ++
    (match m.originalValue with
     | some v => ["\"val\":" ++ v.compactJson]
     | none => []) ++
    (if m.remarks.isEmpty then [] else
      ["\"rem\":[" ++ String.intercalate "," (m.remarks.map jsonQuote) ++ "]"]) ++
    (match m.originalLength with
     | some n => ["\"len\":" ++ toString n]
     | none => [])) ++ "\x7d"

/-- `Annotated<Headers>::to_json`: the headers object with its `_meta`
subtree appended when any annotation is present. -/
def headersToJson (a : Annotated Headers) : String :=
  match a.value with
  | some h =>
    let dataEntries := h.map.map (fun e =>
      jsonQuote e.1 ++ ":" ++ (match e.2.value with
        | some s => jsonQuote s
        | none => "null"))
    let metaEntries :=
      (if metaEmit a.meta then ["\"\":" ++ metaJson a.meta] else []) ++
      h.map.filterMap (fun e =>
        if metaEmit e.2.meta then
          some (jsonQuote e.1 ++ ":\x7b\"\":" ++ metaJson e.2.meta ++ "\x7d")
        else none)
    "\x7b" ++ String.intercalate "," (dataEntries ++
      (if metaEntries.isEmpty then []
       else ["\"_meta\":\x7b" ++ String.intercalate "," metaEntries ++ "\x7d"])) ++ "\x7d"
  | none => "null"

/-! ## Concrete values from the reference tests -/

/-- The request of `test_request_roundtrip` (src/protocol/request.rs). -/
def testRequest : Request where
  url := Annotated.new "https://google.com/search"
  method := Annotated.new "GET"
  data := Annotated.new (.vobj [("some", Annotated.new (.vi64 1))])
  query_string := Annotated.new ⟨[("q", Annotated.new "foo")]⟩
  fragment := Annotated.new "home"
  cookies := Annotated.new ⟨[("GOOGLE", Annotated.new "1")]⟩
  headers := Annotated.new ⟨[("Referer", Annotated.new "https://google.com/")]⟩
  env := Annotated.new [("REMOTE_ADDR", Annotated.new (.vstr "213.47.147.207"))]
  inferred_content_type := Annotated.new "application/json"
  other := [("other", Annotated.new (.vstr "value"))]

/-- The frame of `test_frame_roundtrip` (src/protocol/stacktrace.rs). -/
def testFrame : Frame where
  function := Annotated.new "main"
  symbol := Annotated.new "_main"
  module := Annotated.new "app"
  package := Annotated.new "/my/app"
  filename := Annotated.new "myfile.rs"
  abs_path := Annotated.new "/path/to"
  line := Annotated.new 2
  column := Annotated.new 42
  pre_lines := Annotated.new [Annotated.new "fn main() \x7b"]
  current_line := Annotated.new "unimplemented!()"
  post_lines := Annotated.new [Annotated.new "\x7d"]
  in_app := Annotated.new true
  vars := Annotated.new [("variable", Annotated.new (.vstr "value"))]
  image_addr := Annotated.new ⟨1024⟩
  instruction_addr := Annotated.new ⟨1028⟩
  symbol_addr := Annotated.new ⟨1028⟩
  trust := Annotated.new "69"
  other := [("other", Annotated.new (.vstr "value"))]

/-- The mixed header array of `test_header_from_sequence`. -/
def c2input : Annotated Value := ⟨some (.varr
  [Annotated.new (.varr [Annotated.new (.vstr "accept"),
    Annotated.new (.vstr "application/json")]),
   Annotated.new (.varr [Annotated.new (.vstr "whatever"), Annotated.new (.vi64 42)]),
   Annotated.new (.varr [Annotated.new (.vi64 1), Annotated.new (.vi64 2)]),
   Annotated.new (.varr [Annotated.new (.vstr "a"), Annotated.new (.vstr "b"),
    Annotated.new (.vstr "c")]),
   Annotated.new (.vi64 23)]), Meta.empty⟩

/-- The `bad_items` sequence the loop collects on `c2input`. -/
def c2bad : List (AnnG Value Value) :=
  [Annotated.new (.varr [Annotated.new (.vi64 1), Annotated.new (.vi64 2)]),
   Annotated.new (.varr [Annotated.new (.vstr "a"), Annotated.new (.vstr "b"),
    Annotated.new (.vstr "c")]),
   Annotated.new (.vi64 23)]

/-! ## The claims -/

/-- C1: for every well-formed annotated domain value of the `Request` and
`Frame` schemas, serializing via `ToValue` and re-parsing via `FromValue`
yields the value again; the well-formedness side conditions (`WfRequest`,
`WfFrame`) are exactly the meta canonicalization and ordered-map invariants
that canonical form guarantees. -/
theorem claim_c1_roundtrip :
    (∀ (r : Request) (m : Meta), WfRequest r →
      requestFromValue (requestToValueA ⟨some r, m⟩) = ⟨some r, m⟩) ∧
    (∀ (f : Frame) (m : Meta), WfFrame f →
      frameFromValue (frameToValueA ⟨some f, m⟩) = ⟨some f, m⟩) :=
  ⟨requestFromValue_requestToValue, frameFromValue_frameToValue⟩

theorem claim_c1_roundtrip_witness :
    (WfRequest testRequest ∧
      requestFromValue (requestToValueA ⟨some testRequest, Meta.empty⟩)
        = ⟨some testRequest, Meta.empty⟩) ∧
    (WfFrame testFrame ∧
      frameFromValue (frameToValueA ⟨some testFrame, Meta.empty⟩)
        = ⟨some testFrame, Meta.empty⟩) :=
  ⟨⟨by decide, claim_c1_roundtrip.1 testRequest Meta.empty (by decide)⟩,
   ⟨by decide, claim_c1_roundtrip.2 testFrame Meta.empty (by decide)⟩⟩

/-- C2: on an array input every element that parses to a pair with a valid
string key is inserted under the normalized key with the value's meta merged
with the pair's meta; unusable elements are collected into `bad_items`, and
exactly one error `"invalid non-header values"` carrying `bad_items` is
attached to the container meta iff that sequence is nonempty.  The reference
input serializes to exactly the expected JSON. -/
theorem claim_c2_headers_mixed_array :
    headersFromValue c2input
      = ⟨some ⟨[("Accept", Annotated.new "application/json"),
          ("Whatever", ⟨none, ⟨[("expected a string", some (.vi64 42))], [], none,
            some (.vi64 42)⟩⟩)]⟩,
         ⟨[("invalid non-header values", some (.varr c2bad))], [], none,
          some (.varr c2bad)⟩⟩
    ∧ headersToJson (headersFromValue c2input)
      = "\x7b\"Accept\":\"application/json\",\"Whatever\":null,\"_meta\":\x7b\"\":\x7b\"err\":[\"invalid non-header values\"],\"val\":[[1,2],[\"a\",\"b\",\"c\"],23]\x7d,\"Whatever\":\x7b\"\":\x7b\"err\":[\"expected a string\"],\"val\":42\x7d\x7d\x7d\x7d"
    ∧ (∀ (items : List (AnnG Value Value)) (m : Meta),
        (headersFromValue ⟨some (.varr items), m⟩).meta.errors
          = m.errors ++ (if (headersBadItems items).isEmpty then []
              else [("invalid non-header values", some (.varr (headersBadItems items)))]))
    ∧ (∀ (items : List (AnnG Value Value)) (m : Meta),
        (headersFromValue ⟨some (.varr items), m⟩).value = some ⟨headersMapOf items⟩)
    ∧ (∀ (acc : SMap (Annotated String) × List (AnnG Value Value))
        (item : AnnG Value Value) (key : String) (km : Meta) (v : Option String)
        (vmeta pm : Meta),
        headerTupleFromValue item = ⟨some (⟨some key, km⟩, ⟨v, vmeta⟩), pm⟩ →
        headersItemStep acc item
          = (mapInsert (normalize_header key) ⟨v, pm.merge vmeta⟩ acc.1, acc.2)) := by
  refine ⟨rfl, rfl, ?_, fun items m => rfl, ?_⟩
  · intro items m
    show (if (items.foldl headersItemStep ([], [])).2.isEmpty then m
        else m.addError "invalid non-header values"
          (some (.varr (items.foldl headersItemStep ([], [])).2))).errors
      = m.errors ++ (if (headersBadItems items).isEmpty then []
          else [("invalid non-header values", some (.varr (headersBadItems items)))])
    unfold headersBadItems
    cases hbi : (items.foldl headersItemStep ([], [])).2.isEmpty with
    | true => simp [hbi]
    | false => simp [hbi, MetaG.addError]
  · intro acc item key km v vmeta pm h
    unfold headersItemStep
    rw [h]

theorem claim_c2_headers_mixed_array_witness :
    headersItemStep ([], []) (Annotated.new (.varr [Annotated.new (.vstr "accept"),
      Annotated.new (.vstr "application/json")]))
      = (mapInsert (normalize_header "accept")
          ⟨some "application/json", Meta.empty.merge Meta.empty⟩ [], []) :=
  claim_c2_headers_mixed_array.2.2.2.2 ([], []) _ "accept" Meta.empty
    (some "application/json") Meta.empty Meta.empty rfl

theorem cookies_errors_mono :
    ∀ (segs : List (List Char)) (acc : SMap (Annotated String) × Meta)
      (e : String × Option Value), e ∈ acc.2.errors →
      e ∈ (segs.foldl cookiesSegStep acc).2.errors := by
  intro segs
  induction segs with
  | nil => exact fun acc e h => h
  | cons seg rest ih =>
    intro acc e h
    apply ih
    unfold cookiesSegStep
    by_cases ht : (trimChars seg).isEmpty = true
    · rw [if_pos ht]
      exact h
    · rw [if_neg ht]
      cases parseEncodedCookie (String.mk seg) with
      | some nv => exact h
      | none => exact List.mem_append_left _ h

theorem cookies_errors_add :
    ∀ (segs : List (List Char)) (acc : SMap (Annotated String) × Meta)
      (seg : List Char), seg ∈ segs → (trimChars seg).isEmpty = false →
      parseEncodedCookie (String.mk seg) = none →
      ("invalid cookie", some (.vstr (String.mk seg)))
        ∈ (segs.foldl cookiesSegStep acc).2.errors := by
  intro segs
  induction segs with
  | nil =>
    intro acc seg h
    exact absurd h (List.not_mem_nil _)
  | cons s0 rest ih =>
    intro acc seg hmem htr hp
    rcases List.mem_cons.mp hmem with he | he
    · subst he
      rw [List.foldl_cons]
      apply cookies_errors_mono
      unfold cookiesSegStep
      rw [if_neg (by simp [htr]), hp]
      simp [MetaG.addError]
    · rw [List.foldl_cons]
      exact ih _ seg he htr hp

/-- C3: `Cookies::from_value` on a string splits on `;`, skips
whitespace-only segments, and parses each remaining segment with the
encoded-cookie grammar; a failing segment attaches an error with the raw
segment as captured value to the container meta and the parse continues
(the result is always a present cookie map).  The reference input yields
exactly the expected map. -/
theorem claim_c3_cookies_parsing :
    cookiesFromValue ⟨some (.vstr " PHPSESSID=298zf09hf012fh2; csrftoken=u32t4o3tb3gg43; _gat=1;"), Meta.empty⟩
      = ⟨some ⟨[("PHPSESSID", Annotated.new "298zf09hf012fh2"),
          ("_gat", Annotated.new "1"),
          ("csrftoken", Annotated.new "u32t4o3tb3gg43")]⟩, Meta.empty⟩
    ∧ (∀ (s : String) (m : Meta), ∃ cmap m2,
        cookiesFromValue ⟨some (.vstr s), m⟩ = ⟨some ⟨cmap⟩, m2⟩)
    ∧ (∀ (s : String) (m : Meta) (seg : List Char),
        seg ∈ splitChar ';' s.data → (trimChars seg).isEmpty = false →
        parseEncodedCookie (String.mk seg) = none →
        ∃ msg, (msg, some (.vstr (String.mk seg)))
          ∈ (cookiesFromValue ⟨some (.vstr s), m⟩).meta.errors) := by
  refine ⟨rfl, fun s m => ⟨_, _, rfl⟩, ?_⟩
  intro s m seg hmem htr hp
  exact ⟨"invalid cookie", cookies_errors_add _ _ seg hmem htr hp⟩

theorem claim_c3_cookies_parsing_witness :
    ∃ msg, (msg, some (.vstr " bad"))
      ∈ (cookiesFromValue ⟨some (.vstr "a=1; bad"), Meta.empty⟩).meta.errors :=
  claim_c3_cookies_parsing.2.2 "a=1; bad" Meta.empty (" bad".data)
    (by decide) (by decide) (by decide)

/-- C4: `Query::from_value` on a string strips at most one leading `?`, then
applies form-urlencoded parsing; when a key occurs more than once the last
occurrence's value wins.  The two reference inputs parse to the expected
maps. -/
theorem claim_c4_query_string :
    queryFromValue ⟨some (.vstr "?foo=bar"), Meta.empty⟩
      = ⟨some ⟨[("foo", Annotated.new "bar")]⟩, Meta.empty⟩
    ∧ queryFromValue ⟨some (.vstr "foo=bar&baz=42"), Meta.empty⟩
      = ⟨some ⟨[("baz", Annotated.new "42"), ("foo", Annotated.new "bar")]⟩, Meta.empty⟩
    ∧ (∀ (l : List Char) (m : Meta),
        queryFromValue ⟨some (.vstr (String.mk ('?' :: l))), m⟩
          = ⟨some ⟨queryStringMap (String.mk l)⟩, m⟩)
    ∧ (∀ (qs k : String),
        mapLookup k (queryStringMap qs)
          = (((urlPairs qs).filter (fun e => e.1 = k)).getLast?).map
              (fun kv => Annotated.new kv.2)) := by
  refine ⟨rfl, rfl, fun l m => rfl, ?_⟩
  intro qs k
  unfold queryStringMap
  rw [show (urlPairs qs).foldl (fun rv kv => mapInsert kv.1 (Annotated.new kv.2) rv) []
      = ((urlPairs qs).map (fun kv => (kv.1, Annotated.new kv.2))).foldl
          (fun m x => mapInsert x.1 x.2 m) [] from by rw [List.foldl_map]]
  rw [mapLookup_foldl]
  simp only [List.filter_map, List.getLast?_map, Option.map_map, mapLookup, Option.or_none]
  rfl

/-- C5: `Query::from_value` on an object sends string and null entries
through the default string conversion, re-serializes array and object
entries to a compact JSON string while keeping the entry's meta, and lets
the remaining scalars fall through to the default conversion, which records
an unexpected-type error.  The reference legacy input parses to the expected
map. -/
theorem claim_c5_query_object :
    queryFromValue ⟨some (.vobj
        [("baz", Annotated.new (.vobj [("a", Annotated.new (.vi64 42))])),
         ("foo", Annotated.new (.vstr "bar"))]), Meta.empty⟩
      = ⟨some ⟨[("baz", Annotated.new "\x7b\"a\":42\x7d"),
          ("foo", Annotated.new "bar")]⟩, Meta.empty⟩
    ∧ (∀ (k s : String) (m2 : Meta),
        queryEntryStep (k, ⟨some (.vstr s), m2⟩) = (k, ⟨some s, m2⟩))
    ∧ (∀ (k : String) (m2 : Meta),
        queryEntryStep (k, ⟨some .null, m2⟩) = (k, ⟨none, m2⟩))
    ∧ (∀ (k : String) (o : List (String × AnnG Value Value)) (m2 : Meta),
        queryEntryStep (k, ⟨some (.vobj o), m2⟩)
          = (k, ⟨some (Value.vobj o).compactJson, m2⟩))
    ∧ (∀ (k : String) (l : List (AnnG Value Value)) (m2 : Meta),
        queryEntryStep (k, ⟨some (.varr l), m2⟩)
          = (k, ⟨some (Value.varr l).compactJson, m2⟩))
    ∧ (∀ (k : String) (b : Bool) (m2 : Meta),
        queryEntryStep (k, ⟨some (.vbool b), m2⟩)
          = (k, ⟨none, m2.addUnexpectedValueError "a string" (.vbool b)⟩))
    ∧ (∀ (k : String) (i : Int) (m2 : Meta),
        queryEntryStep (k, ⟨some (.vi64 i), m2⟩)
          = (k, ⟨none, m2.addUnexpectedValueError "a string" (.vi64 i)⟩)) :=
  ⟨rfl, fun _ _ _ => rfl, fun _ _ => rfl, fun _ _ _ => rfl, fun _ _ _ => rfl,
   fun _ _ _ => rfl, fun _ _ _ => rfl⟩

/-- C6 as stated is false: on the numeric input `42` the captured original
value is the input itself, never `64` (under either integer tag). -/
theorem claim_c6_counterexample :
    (queryFromValue ⟨some (.vi64 42), Meta.empty⟩
      ≠ Annotated.fromError "expected query-string or map" (some (.vi64 64))) ∧
    (queryFromValue ⟨some (.vi64 42), Meta.empty⟩
      ≠ Annotated.fromError "expected query-string or map" (some (.vu64 64))) ∧
    (queryFromValue ⟨some (.vu64 42), Meta.empty⟩
      ≠ Annotated.fromError "expected query-string or map" (some (.vi64 64))) ∧
    (queryFromValue ⟨some (.vu64 42), Meta.empty⟩
      ≠ Annotated.fromError "expected query-string or map" (some (.vu64 64))) := by
  refine ⟨fun h => ?_, fun h => ?_, fun h => ?_, fun h => ?_⟩ <;>
  · have := congrArg (fun a => a.meta.originalValue) h
    simp [queryFromValue, Annotated.fromError, MetaG.addUnexpectedValueError,
      MetaG.addError, Meta.empty] at this

/-- C6 amended: `Query::from_value` on the numeric input `42` returns
`Annotated(None, meta)` whose meta carries the single error
`"expected query-string or map"` with the input itself (`42`) as the
captured original value. -/
theorem claim_c6_amended :
    queryFromValue ⟨some (.vi64 42), Meta.empty⟩
      = ⟨none, Meta.empty.addUnexpectedValueError "query-string or map" (.vi64 42)⟩
    ∧ queryFromValue ⟨some (.vu64 42), Meta.empty⟩
      = ⟨none, Meta.empty.addUnexpectedValueError "query-string or map" (.vu64 42)⟩
    ∧ (queryFromValue ⟨some (.vi64 42), Meta.empty⟩).meta.errors
      = [("expected query-string or map", some (.vi64 42))]
    ∧ (queryFromValue ⟨some (.vi64 42), Meta.empty⟩).meta.originalValue
      = some (.vi64 42) :=
  ⟨rfl, rfl, rfl, rfl⟩

/-- C7: deserializing a `Stacktrace` from the empty object yields a present
stacktrace whose required `frames` field is absent with the synthesized
`"value required"` error; in general a declared `required` field that is
absent (with no other recorded errors) receives exactly that error. -/
theorem claim_c7_required :
    stacktraceFromValue ⟨some (.vobj []), Meta.empty⟩
      = ⟨some {
          frames := Annotated.fromError "value required" none
          registers := ⟨none, Meta.empty⟩
          other := [] }, Meta.empty⟩
    ∧ (∀ (entries : List (String × AnnG Value Value)) (m : Meta),
        mapLookup "frames" entries = none →
        (stacktraceFromValue ⟨some (.vobj entries), m⟩).value.map Stacktrace.frames
          = some (Annotated.fromError "value required" none))
    ∧ (∀ (a : Annotated (List (Annotated Frame))),
        a.value = none → a.meta.errors = [] →
        requiredField a = ⟨none, a.meta.addError "value required" none⟩) := by
  refine ⟨rfl, ?_, ?_⟩
  · intro entries m h
    show some (requiredField (nonemptyListField
        (arrayFrameFromValue (objGet entries "frames")))) = _
    rw [show objGet entries "frames" = ⟨none, Meta.empty⟩ from by
      unfold objGet
      rw [h]]
    rfl
  · intro a h1 h2
    rcases a with ⟨v, mm⟩
    simp only at h1 h2
    subst h1
    show (if mm.errors.isEmpty = true
        then (⟨none, mm.addError "value required" none⟩ : Annotated (List (Annotated Frame)))
        else ⟨none, mm⟩)
      = ⟨none, mm.addError "value required" none⟩
    rw [if_pos (by simp [h2])]

theorem claim_c7_required_witness :
    (stacktraceFromValue ⟨some (.vobj [("registers", Annotated.new (.vobj []))]),
      Meta.empty⟩).value.map Stacktrace.frames
      = some (Annotated.fromError "value required" none) :=
  claim_c7_required.2.1 [("registers", Annotated.new (.vobj []))] Meta.empty rfl

/-- C8: header normalization splits on `-`, uppercases the first character
of each segment (full Unicode expansion), copies the rest, and rejoins with
`-`, preserving leading, trailing and repeated dashes as empty segments;
the reference headers object parses to the expected normalized map. -/
theorem claim_c8_header_normalization :
    normalize_header "-other-" = "-Other-"
    ∧ normalize_header "x-sentry" = "X-Sentry"
    ∧ normalize_header "a--b" = "A--B"
    ∧ headersFromValue ⟨some (.vobj
        [("-other-", Annotated.new (.vstr "header")),
         ("accept", Annotated.new (.vstr "application/json")),
         ("x-sentry", Annotated.new (.vstr "version=8"))]), Meta.empty⟩
      = ⟨some ⟨[("-Other-", Annotated.new "header"),
          ("Accept", Annotated.new "application/json"),
          ("X-Sentry", Annotated.new "version=8")]⟩, Meta.empty⟩
    ∧ (∀ (c : Char) (rest : List Char),
        capitalizeSegment (c :: rest) = charUppercase c ++ rest)
    ∧ (∀ (l : List Char), splitChar '-' ('-' :: l) = [] :: splitChar '-' l) :=
  ⟨rfl, rfl, rfl, rfl, fun _ _ => rfl, fun _ => rfl⟩

/-- C9: header name normalization is idempotent on every string, including
strings with characters whose uppercase expansion has several characters
(the second conjunct exercises the multi-character expansion of `ß`). -/
theorem claim_c9_normalize_idempotent :
    (∀ s : String, normalize_header (normalize_header s) = normalize_header s)
    ∧ normalize_header "ßeta-zz" = "SSeta-Zz"
    ∧ normalize_header (normalize_header "ßeta-zz") = normalize_header "ßeta-zz" :=
  ⟨normalize_header_idem, rfl, rfl⟩

/-- C10: an array element that parses to a pair with no usable key
contributes to `bad_items` only when both the original key is recoverable
from the key's meta and the original value is recoverable from the value or
its meta; otherwise the element is dropped silently — no map entry, no
`bad_items` entry, no container error. -/
theorem claim_c10_silent_drop :
    (∀ (acc : SMap (Annotated String) × List (AnnG Value Value))
      (item : AnnG Value Value) (km : Meta) (val : Annotated String) (pm : Meta),
        headerTupleFromValue item = ⟨some (⟨none, km⟩, val), pm⟩ →
        (km.takeOriginalValue = none ∨
          ((stringToValue val).value.or
            (stringToValue val).meta.takeOriginalValue) = none) →
        headersItemStep acc item = acc)
    ∧ (∀ (acc : SMap (Annotated String) × List (AnnG Value Value))
        (item : AnnG Value Value) (km : Meta) (val : Annotated String) (pm : Meta)
        (k w : Value),
        headerTupleFromValue item = ⟨some (⟨none, km⟩, val), pm⟩ →
        km.takeOriginalValue = some k →
        ((stringToValue val).value.or
          (stringToValue val).meta.takeOriginalValue) = some w →
        headersItemStep acc item
          = (acc.1, acc.2 ++ [Annotated.new
              (Value.varr [Annotated.new k, Annotated.new w])]))
    ∧ headersFromValue ⟨some (.varr
        [Annotated.new (.varr [Annotated.new (.vstr "accept"),
          Annotated.new (.vstr "application/json")]),
         Annotated.new (.varr [Annotated.new .null, Annotated.new (.vstr "x")])]),
        Meta.empty⟩
      = ⟨some ⟨[("Accept", Annotated.new "application/json")]⟩, Meta.empty⟩ := by
  refine ⟨?_, ?_, rfl⟩
  · intro acc item km val pm h hdrop
    unfold headersItemStep
    rw [h]
    show (match km.takeOriginalValue,
        ((stringToValue val).value.or (stringToValue val).meta.takeOriginalValue) with
      | some k, some w =>
        (acc.1, acc.2 ++ [Annotated.new (Value.varr [Annotated.new k, Annotated.new w])])
      | _, _ => acc) = acc
    rcases hdrop with hk | hv
    · rw [hk]
    · rw [hv]
      cases hK : km.takeOriginalValue <;> rfl
  · intro acc item km val pm k w h hk hw
    unfold headersItemStep
    rw [h]
    show (match km.takeOriginalValue,
        ((stringToValue val).value.or (stringToValue val).meta.takeOriginalValue) with
      | some k2, some w2 =>
        (acc.1, acc.2 ++ [Annotated.new (Value.varr [Annotated.new k2, Annotated.new w2])])
      | _, _ => acc)
      = (acc.1, acc.2 ++ [Annotated.new (Value.varr [Annotated.new k, Annotated.new w])])
    rw [hk, hw]

theorem claim_c10_silent_drop_witness :
    headersItemStep ([("A", Annotated.new "b")], [])
      (Annotated.new (.varr [Annotated.new .null, Annotated.new (.vstr "x")]))
      = ([("A", Annotated.new "b")], []) :=
  claim_c10_silent_drop.1 ([("A", Annotated.new "b")], []) _ Meta.empty
    ⟨some "x", Meta.empty⟩ Meta.empty rfl (Or.inl rfl)

end Gen